import Mathlib

/-!
# Shell variants: tokenizer, launcher and job table

A shallow embedding of the C sources `shell2.c` … `shell6.c`.

* A C string is the list of its characters before the terminating NUL.
* The NULL-terminated `char *arglist[]` is a list of slots, `none` being NULL.
* System calls append to a trace; what they return is read from an `OS` record.
* An access outside an array, or through NULL, ends a run in `Ret.undefined`.
-/

set_option autoImplicit false

namespace Shell

/-! ## Constants of the sources -/

/-- The `#define MAX_LEN 512` of every variant. -/
def MAX_LEN : Nat := 512

/-- The `#define MAXARGS 10` of every variant. -/
def MAXARGS : Nat := 10

/-- The `#define ARGLEN 30` of every variant. -/
def ARGLEN : Nat := 30

/-- The `#define HIST_SIZE 10` of shell5.c and shell6.c. -/
def HIST_SIZE : Nat := 10

/-- Characters of a C string, the terminating NUL left out. -/
abbrev CStr := List Char

/-- Kinds of undefined behaviour a run can end in. -/
inductive UB where
  /-- access to `arglist[k]` with `k > MAXARGS`: past the `MAXARGS + 1` slots -/
  | arglistSlot
  /-- write to `arglist[k][len]` with `len ≥ ARGLEN`: past the token buffer -/
  | argBuffer
  /-- read of `arglist[-1]` -/
  | arglistBefore
  /-- a NULL pointer handed to `strcmp` or `strncpy` -/
  | nullString
  /-- access to `jobs[k]` with `k ≥ MAXARGS`: past the job array -/
  | jobsSlot
  /-- access to `command_history[k]` with `k < 0` or `k ≥ HIST_SIZE` -/
  | historySlot
  deriving DecidableEq, Repr

/-- Result of running a C function: a value, undefined behaviour, or a loop budget used up. -/
inductive Ret (α : Type) where
  | value (a : α)
  | undefined (u : UB)
  | unfinished
  deriving DecidableEq, Repr

/-! ## Specification vocabulary for the parser -/

/-- The whitespace of the claims: a space or a tab. -/
def isWhitespace (c : Char) : Bool := c == ' ' || c == '\t'

/-- The only separator `shell6.c` tests for: `*start == ' '`. -/
def isSpace (c : Char) : Bool := c == ' '

/-- Maximal runs of non-separator characters of a line, left to right. -/
def maximalRuns (sep : Char → Bool) (line : CStr) : List CStr :=
  (line.splitOnP sep).filter (fun w => !w.isEmpty)

/-- A token vector with a trailing `&` taken off; unchanged when the last token is not `&`. -/
def stripAmp (toks : List CStr) : List CStr :=
  if toks.getLast? = some "&".toList then toks.dropLast else toks

/-- The operator tokens of the command grammar. -/
def operatorTokens : List CStr := ["<".toList, ">".toList, "|".toList, "&".toList]

namespace Shell6

/-! ## `tokenize` of shell6.c -/

/-- Body of `while (*start) { … }` in `tokenize`; `arglist` holds the `argnum` tokens
stored so far.  The budget bounds the number of iterations. -/
def tokenizeLoop : Nat → CStr → List CStr → Ret (List CStr)
  | 0, _, _ => .unfinished
  | fuel + 1, start, arglist =>
    if start.isEmpty then .value arglist                    -- while (*start)
    else
      let start1 := start.dropWhile (fun c => c == ' ')     -- while (*start == ' ') start++;
      if start1.isEmpty then .value arglist                 -- if (*start == '\0') break;
      else
        -- char *end = start; while (*end && *end != ' ') end++;
        let word := start1.takeWhile (fun c => c != ' ')
        let rest := start1.dropWhile (fun c => c != ' ')
        let len := word.length                              -- int len = end - start;
        if len > 0 then
          if arglist.length > MAXARGS then .undefined .arglistSlot    -- arglist[argnum]
          else if len ≥ ARGLEN then .undefined .argBuffer             -- arglist[argnum][len] = 0
          else tokenizeLoop fuel rest (arglist ++ [word])             -- argnum++; start = end;
        else tokenizeLoop fuel rest arglist

/-- The function `char **tokenize(char *cmdline)`.  `none` is a NULL return, `some toks` is
an `arglist` whose slots `0 .. toks.length - 1` are the tokens and whose next slot is NULL. -/
def tokenize (cmdline : CStr) : Ret (Option (List CStr)) :=
  match tokenizeLoop (cmdline.length + 1) cmdline [] with
  | .value arglist =>
    if arglist.length > MAXARGS then .undefined .arglistSlot    -- arglist[argnum] = NULL;
    else .value (some arglist)                                  -- return arglist;
  | .undefined u => .undefined u
  | .unfinished => .unfinished

end Shell6

/-! ## System calls -/

/-- An argument handed to `printf`. -/
inductive Arg where
  | int (n : Int)
  | str (s : CStr)
  deriving DecidableEq, Repr

/-- One call made by the process, with what it returned where that matters. -/
inductive Event where
  | fork (ret : Int)
  | pipe (ret : Int)
  | openFile (path : Option CStr) (write : Bool) (fd : Int)
  | dup2 (oldfd newfd : Int)
  | close (fd : Int)
  | execvp (file : Option CStr) (argv : List CStr)
  | waitpid (pid : Int) (options : Int)
  | kill (pid : Int) (sig : Int)
  | printf (format : String) (args : List Arg)
  | stderr (text : String)
  | exit (status : Int)
  deriving DecidableEq, Repr

/-- How a run of `execute` ends. -/
inductive Outcome where
  /-- the function returned this value to its caller -/
  | returned (value : Int)
  /-- the process ended through `exit(status)` -/
  | exited (status : Int)
  /-- `execvp` succeeded: the process now runs another program -/
  | replaced
  /-- undefined behaviour -/
  | undefined (u : UB)
  deriving DecidableEq, Repr

/-- Answers of the operating system. -/
structure OS where
  /-- value of the k-th call of `fork` in this process: 0 in the child, the child's pid in
  the parent, -1 on failure -/
  fork : Nat → Int
  /-- descriptor returned by `open` on a path (the flag says: for writing), negative on failure -/
  openFile : CStr → Bool → Int
  /-- whether `execvp` succeeds -/
  execvp : Option CStr → List CStr → Bool
  /-- the `status` stored by `waitpid(pid, &status, 0)` -/
  waitStatus : Int → Int
  /-- value returned by `kill(pid, sig)` -/
  kill : Int → Int → Int
  /-- value returned by `pipe(pipefd)` and the two descriptors it stores -/
  pipe : Int × Int × Int

/-- The system call `open`: a NULL path is not a readable address, the call fails (EFAULT). -/
def sysOpen (os : OS) (path : Option CStr) (write : Bool) : Int :=
  match path with
  | none => -1
  | some p => os.openFile p write

/-- `SIGKILL`. -/
def SIGKILL : Int := 9

/-- The array `char *arglist[]` as filled by `tokenize`: the tokens, then NULL. -/
def slotsOf (arglist : List CStr) : List (Option CStr) := arglist.map some ++ [none]

/-- The vector `execvp` reads from a slot array: the strings before the first NULL. -/
def argvOf : List (Option CStr) → List CStr
  | some tok :: rest => tok :: argvOf rest
  | _ => []

/-- The child after its redirections: `execvp(arglist[first], &arglist[first])`, then
`perror` and `exit(1)` when that returns. -/
def execChild (os : OS) (msg : String) (slots : List (Option CStr)) (first : Nat) :
    List Event × Outcome :=
  let file := slots.getD first none
  let argv := argvOf (slots.drop first)
  if os.execvp file argv then ([.execvp file argv], .replaced)
  else ([.execvp file argv, .stderr msg, .exit 1], .exited 1)

/-- One redirection block of the child: `if (redirect != -1) { fd = open(arglist[redirect + 1],
…); if (fd < 0) { perror; exit(1); } dup2(fd, stdfd); close(fd); arglist[redirect] = NULL; }`.
The slot array is `none` when the child has exited. -/
def applyRedirect (os : OS) (write : Bool) (redirect : Option Nat)
    (slots : List (Option CStr)) : List Event × Option (List (Option CStr)) :=
  match redirect with
  | none => ([], some slots)
  | some k =>
    let path := slots.getD (k + 1) none
    let fd := sysOpen os path write
    if fd < 0 then
      ([.openFile path write fd,
        .stderr (if write then "Failed to open file for writing"
                 else "Failed to open file for reading"),
        .exit 1], none)
    else
      ([.openFile path write fd, .dup2 fd (if write then 1 else 0), .close fd],
        some (slots.set k none))

/-- The child of the plain (non-pipeline) launch, the same text in every variant. -/
def launchChild (os : OS) (inRedirect outRedirect : Option Nat)
    (slots : List (Option CStr)) : List Event × Outcome :=
  match applyRedirect os false inRedirect slots with
  | (ev1, none) => (ev1, .exited 1)
  | (ev1, some slots1) =>
    match applyRedirect os true outRedirect slots1 with
    | (ev2, none) => (ev1 ++ ev2, .exited 1)
    | (ev2, some slots2) =>
      let r := execChild os "Command not found..." slots2 0
      (ev1 ++ ev2 ++ r.1, r.2)

/-! ## The job table of shell6.c -/

/-- The `struct Job`. -/
structure Job where
  pid : Int
  job_number : Int
  command : CStr
  deriving DecidableEq, Repr

/-- The globals `Job jobs[MAXARGS]` and `int job_count`. -/
structure JobTable where
  jobs : Nat → Job
  job_count : Nat

/-- The globals at program start: zero-initialised. -/
def JobTable.init : JobTable := ⟨fun _ => ⟨0, 0, []⟩, 0⟩

/-- The assignment `jobs[k] = job`. -/
def setSlot (jobs : Nat → Job) (k : Nat) (job : Job) : Nat → Job :=
  fun i => if i = k then job else jobs i

/-- The entries in use: slots `0 .. job_count - 1`, in order. -/
def JobTable.live (t : JobTable) : List Job := (List.range t.job_count).map t.jobs

/-- A table holding exactly the given entries (used to write concrete tables). -/
def JobTable.ofList (l : List Job) : JobTable := ⟨fun i => l.getD i ⟨0, 0, []⟩, l.length⟩

/-- The process ids of the entries in use, in order. -/
def JobTable.pids (t : JobTable) : List Int := t.live.map Job.pid

/-- A table filled to capacity: `MAXARGS` jobs with the pids 101, 102, … -/
def fullTable : JobTable :=
  JobTable.ofList ((List.range MAXARGS).map fun i => ⟨101 + (i : Int), (i : Int) + 1, "sleep".toList⟩)

namespace Shell6

/-! ## `execute` of shell6.c -/

/-- A run of `execute`: the calls made, how it ended, and the job table afterwards. -/
structure Run where
  trace : List Event
  outcome : Outcome
  table : JobTable

/-- The scan `while (arglist[i] != NULL) { … i++; }` from index `i` on.  For `inRedirect`
and `outRedirect`, `none` is the C value -1.  Returns the final `i` and both positions. -/
def scanLoop : List CStr → Nat → Option Nat → Option Nat → Nat × Option Nat × Option Nat
  | [], i, inRedirect, outRedirect => (i, inRedirect, outRedirect)
  | tok :: rest, i, inRedirect, outRedirect =>
    if tok = "<".toList then scanLoop rest (i + 1) (some i) outRedirect
    else if tok = ">".toList then scanLoop rest (i + 1) inRedirect (some i)
    else scanLoop rest (i + 1) inRedirect outRedirect

/-- The step `if (arglist[i - 1] != NULL && strcmp(arglist[i - 1], "&") == 0) { background = 1;
arglist[i - 1] = NULL; }` for `i > 0`: the flag and the slot array afterwards. -/
def backgroundStep (slots : List (Option CStr)) (i : Nat) : Bool × List (Option CStr) :=
  if slots.getD (i - 1) none = some "&".toList then (true, slots.set (i - 1) none)
  else (false, slots)

/-- The parent branch of `execute` after `fork` returned `cpid` (any value but 0). -/
def executeParent (os : OS) (cpid : Int) (background : Bool) (slots : List (Option CStr))
    (t : JobTable) : Run :=
  if background then
    if t.job_count ≥ MAXARGS then
      ⟨[.fork cpid], .undefined .jobsSlot, t⟩               -- jobs[job_count].pid = cpid;
    else
      match slots.getD 0 none with
      | none => ⟨[.fork cpid], .undefined .nullString, t⟩   -- strncpy(…, arglist[0], MAX_LEN)
      | some name =>
        ⟨[.fork cpid, .printf "Started background process with PID %d\n" [.int cpid]],
          .returned 0,
          ⟨setSlot t.jobs t.job_count ⟨cpid, (t.job_count : Int) + 1, name.take MAX_LEN⟩,
            t.job_count + 1⟩⟩
  else
    ⟨[.fork cpid, .waitpid cpid 0,
        .printf "Child exited with status %d\n" [.int (os.waitStatus cpid >>> 8)]],
      .returned 0, t⟩

/-- The function `int execute(char *arglist[])` on the token vector `arglist`. -/
def execute (os : OS) (arglist : List CStr) (t : JobTable) : Run :=
  match scanLoop arglist 0 none none with
  | (i, inRedirect, outRedirect) =>
    if i = 0 then ⟨[], .undefined .arglistBefore, t⟩        -- arglist[i - 1] with i == 0
    else
      match backgroundStep (slotsOf arglist) i with
      | (background, slots) =>
        let cpid := os.fork 0                               -- cpid = fork();
        if cpid = 0 then
          let r := launchChild os inRedirect outRedirect slots
          ⟨.fork cpid :: r.1, r.2, t⟩
        else executeParent os cpid background slots t

/-! ## Job control of shell6.c -/

/-- The inner loop `for (int j = i; j < job_count - 1; j++) jobs[j] = jobs[j + 1];` from `j` on;
the first argument is the number of iterations left, `job_count - 1 - j`. -/
def shiftJobs : Nat → Nat → (Nat → Job) → (Nat → Job)
  | 0, _, jobs => jobs
  | n + 1, j, jobs => shiftJobs n (j + 1) (setSlot jobs j (jobs (j + 1)))

/-- The outer loop of `remove_job` from `i` on; the first argument is the number of
iterations left, `job_count - i`. -/
def removeFrom (pid : Int) (t : JobTable) : Nat → Nat → JobTable
  | 0, _ => t
  | n + 1, i =>
    if (t.jobs i).pid = pid then
      ⟨shiftJobs (t.job_count - 1 - i) i t.jobs, t.job_count - 1⟩   -- job_count--; return;
    else removeFrom pid t n (i + 1)

/-- The function `void remove_job(int pid)`. -/
def remove_job (pid : Int) (t : JobTable) : JobTable := removeFrom pid t t.job_count 0

/-- The function `void sigchld_handler(int signo)`; the list holds the values the successive
calls `waitpid(-1, NULL, WNOHANG)` return (after the list is used up `waitpid` returns a
value that is not positive).  Returns the lines printed and the table. -/
def sigchld_handler : List Int → JobTable → List Event × JobTable
  | [], t => ([], t)
  | pid :: more, t =>
    if pid > 0 then
      let r := sigchld_handler more (remove_job pid t)
      (.printf "Job with PID %d terminated.\n" [.int pid] :: r.1, r.2)
    else ([], t)

/-- The function `void show_jobs()`: one `printf` per entry in use. -/
def show_jobs (t : JobTable) : List Event :=
  (List.range t.job_count).map fun i =>
    .printf "[%d] %d %s\n" [.int (t.jobs i).job_number, .int (t.jobs i).pid, .str (t.jobs i).command]

/-- The function `void kill_job(int job_number)`. -/
def kill_job (os : OS) (job_number : Int) (t : JobTable) : List Event × JobTable :=
  if job_number > 0 ∧ job_number ≤ (t.job_count : Int) then
    let pid := (t.jobs (job_number - 1).toNat).pid
    if os.kill pid SIGKILL = 0 then
      ([.kill pid SIGKILL,
        .printf "Killed job [%d] with PID %d: %s\n"
          [.int job_number, .int pid, .str (t.jobs (job_number - 1).toNat).command]],
        remove_job pid t)
    else ([.kill pid SIGKILL, .stderr "Failed to kill job"], t)
  else ([.stderr "No such job number\n"], t)

/-- The function `void kill_job_by_pid(int pid)`. -/
def kill_job_by_pid (os : OS) (pid : Int) (t : JobTable) : List Event × JobTable :=
  if os.kill pid SIGKILL = 0 then
    ([.kill pid SIGKILL, .printf "Killed job with PID %d\n" [.int pid]], remove_job pid t)
  else ([.kill pid SIGKILL, .stderr "Failed to kill job by PID"], t)

/-! ## The loop body of `main` in shell6.c -/

/-- The library function `isspace` in the C locale. -/
def isspace (c : Char) : Bool :=
  c == ' ' || c == '\t' || c == '\n' || c == '\x0b' || c == '\x0c' || c == '\r'

/-- Decimal digits read by `atoi`, accumulated left to right. -/
def atoiDigits : List Char → Int → Int
  | [], acc => acc
  | c :: cs, acc => if c.isDigit then atoiDigits cs (acc * 10 + ((c.toNat : Int) - 48)) else acc

/-- The library function `atoi` (on values that fit an `int`): optional white space, an
optional sign, then digits. -/
def atoi (s : CStr) : Int :=
  match s.dropWhile isspace with
  | [] => 0
  | c :: cs =>
    if c = '-' then - atoiDigits cs 0
    else if c = '+' then atoiDigits cs 0
    else atoiDigits (c :: cs) 0

/-- The branch one pass of the `while (1)` body of `main` takes on a line. -/
inductive Action where
  /-- the line starts with `!`: `repeat_command(cmdline)` -/
  | repeat_command (cmdline : CStr)
  /-- `change_directory(arglist[1])`, NULL being `none` -/
  | change_directory (path : Option CStr)
  /-- the built-in `exit` -/
  | exit
  /-- the built-in `jobs` -/
  | show_jobs
  /-- `kill_job_by_pid(pid)` -/
  | kill_job_by_pid (pid : Int)
  /-- `kill_job(job_number)` -/
  | kill_job (job_number : Int)
  /-- the usage line of `kill` -/
  | usage
  /-- the built-in `help` -/
  | show_help
  /-- `set_variable(arglist[1], arglist[2], global)` -/
  | set_variable (name value : CStr) (global : Int)
  /-- the built-in `get` -/
  | get_variable (name : CStr)
  /-- the built-in `listvars` -/
  | list_variables
  /-- `execute(arglist)` -/
  | execute (arglist : List CStr)
  /-- `tokenize` returned NULL: the body of the `if` is skipped -/
  | nothing
  deriving DecidableEq, Repr

/-- The branch taken by the body of the `while (1)` loop of `main` on the line `cmdline`
that `read_cmd` returned (the history update and the frees are left out). -/
def mainDispatch (cmdline : CStr) : Ret Action :=
  if cmdline.head? = some '!' then .value (.repeat_command cmdline)
  else
    match tokenize cmdline with
    | .undefined u => .undefined u
    | .unfinished => .unfinished
    | .value none => .value .nothing                  -- (arglist = tokenize(cmdline)) == NULL
    | .value (some arglist) =>
      match arglist with
      | [] => .undefined .nullString                  -- strcmp(arglist[0], "cd"), arglist[0] NULL
      | cmd :: args =>
        if cmd = "cd".toList then .value (.change_directory args.head?)
        else if cmd = "exit".toList then .value .exit
        else if cmd = "jobs".toList then .value .show_jobs
        else if cmd = "kill".toList then
          match args.head? with
          | some a =>
            let pid := atoi a
            if pid > 0 then .value (.kill_job_by_pid pid)
            else .value (.kill_job (atoi a))
          | none => .value .usage
        else if cmd = "help".toList then .value .show_help
        else
          match decide (cmd = "set".toList), args with
          | true, name :: value :: more =>
            .value (.set_variable name value
              (if more.head? = some "global".toList then 1 else 0))
          | _, _ =>
            match decide (cmd = "get".toList), args with
            | true, name :: _ => .value (.get_variable name)
            | _, _ =>
              if cmd = "listvars".toList then .value .list_variables
              else .value (.execute arglist)

/-- Several runs of `sigchld_handler`, one per list of reported pids; the table at the end. -/
def reap (batches : List (List Int)) (t : JobTable) : JobTable :=
  batches.foldl (fun table reported => (sigchld_handler reported table).2) t

end Shell6

namespace Shell2

/-! ## `execute` of shell2.c -/

/-- A run of `execute`: the calls made and how it ended. -/
structure Run where
  trace : List Event
  outcome : Outcome
  deriving DecidableEq, Repr

/-- The scan `while (arglist[i] != NULL) { … i++; }` from index `i` on; `none` is the C
value -1.  Returns `inRedirect`, `outRedirect` and `pipeFound`. -/
def scanLoop : List CStr → Nat → Option Nat → Option Nat → Option Nat →
    Option Nat × Option Nat × Option Nat
  | [], _, inRedirect, outRedirect, pipeFound => (inRedirect, outRedirect, pipeFound)
  | tok :: rest, i, inRedirect, outRedirect, pipeFound =>
    if tok = "<".toList then scanLoop rest (i + 1) (some i) outRedirect pipeFound
    else if tok = ">".toList then scanLoop rest (i + 1) inRedirect (some i) pipeFound
    else if tok = "|".toList then scanLoop rest (i + 1) inRedirect outRedirect (some i)
    else scanLoop rest (i + 1) inRedirect outRedirect pipeFound

/-- The branch `if (pipeFound != -1) { … return 0; }` of `execute`. -/
def executePipe (os : OS) (arglist : List CStr) (pipeFound : Nat) : Run :=
  match os.pipe with
  | (ret, rfd, wfd) =>
    if ret = -1 then ⟨[.pipe ret, .stderr "Pipe failed"], .returned 1⟩
    else
      let cpid := os.fork 0
      if cpid = -1 then ⟨[.pipe ret, .fork cpid, .stderr "Fork failed"], .returned 1⟩
      else if cpid = 0 then
        -- arglist[pipeFound] = NULL; … execvp(arglist[0], arglist);
        let r := execChild os "Execution failed" ((slotsOf arglist).set pipeFound none) 0
        ⟨[.pipe ret, .fork cpid, .close rfd, .dup2 wfd 1, .close wfd] ++ r.1, r.2⟩
      else
        let cpid2 := os.fork 1
        if cpid2 = 0 then
          -- execvp(arglist[pipeFound + 1], &arglist[pipeFound + 1]);
          let r := execChild os "Execution failed" (slotsOf arglist) (pipeFound + 1)
          ⟨[.pipe ret, .fork cpid, .waitpid cpid 0, .fork cpid2, .dup2 rfd 0, .close wfd] ++ r.1,
            r.2⟩
        else
          ⟨[.pipe ret, .fork cpid, .waitpid cpid 0, .fork cpid2, .close rfd, .close wfd,
              .waitpid cpid2 0],
            .returned 0⟩

/-- The function `int execute(char* arglist[])` of shell2.c. -/
def execute (os : OS) (arglist : List CStr) : Run :=
  match scanLoop arglist 0 none none none with
  | (inRedirect, outRedirect, pipeFound) =>
    match pipeFound with
    | some p => executePipe os arglist p
    | none =>
      let cpid := os.fork 0
      if cpid = 0 then
        let r := launchChild os inRedirect outRedirect (slotsOf arglist)
        ⟨.fork cpid :: r.1, r.2⟩
      else
        ⟨[.fork cpid, .waitpid cpid 0,
            .printf "Child exited with status %d\n" [.int (os.waitStatus cpid >>> 8)]],
          .returned 0⟩

end Shell2

/-- An operating system in which every call succeeds: the calls of `fork` answer `cpid`,
`cpid + 1`, … (all of them 0 when `cpid` is 0, the view of a child), `open` answers
descriptor 3, `pipe` stores the descriptors 3 and 4, every child ends with status 0. -/
def quietOS (cpid : Int) : OS :=
  ⟨fun k => if cpid = 0 then 0 else cpid + k, fun _ _ => 3, fun _ _ => true, fun _ => 0,
    fun _ _ => 0, (0, 3, 4)⟩

/-- The table after `sleep &` (child 100) and `cat &` (child 200) were launched from the
empty table and `remove_job(100)` ran. -/
def tableAfterRemoval : JobTable :=
  Shell6.remove_job 100
    (Shell6.execute (quietOS 200) ["cat".toList, "&".toList]
      (Shell6.execute (quietOS 100) ["sleep".toList, "&".toList] JobTable.init).table).table

/-- The oracle `quietOS cpid`, except that the child `cpid + 1` ends with wait status
`status` (exit status `status >> 8`). -/
def statusOS (cpid : Int) (status : Int) : OS :=
  ⟨fun k => if cpid = 0 then 0 else cpid + k, fun _ _ => 3, fun _ _ => true,
    fun pid => if pid = cpid + 1 then status else 0, fun _ _ => 0, (0, 3, 4)⟩

namespace Shell5

/-! ## `tokenize` of shell5.c -/

/-- Body of `while (*start) { … }` in `tokenize` of shell5.c: as in shell6.c, with the clamp
`if (len >= ARGLEN) len = ARGLEN - 1;` before the copy. -/
def tokenizeLoop : Nat → CStr → List CStr → Ret (List CStr)
  | 0, _, _ => .unfinished
  | fuel + 1, start, arglist =>
    if start.isEmpty then .value arglist                    -- while (*start)
    else
      let start1 := start.dropWhile (fun c => c == ' ')     -- while (*start == ' ') start++;
      if start1.isEmpty then .value arglist                 -- if (*start == '\0') break;
      else
        let word := start1.takeWhile (fun c => c != ' ')
        let rest := start1.dropWhile (fun c => c != ' ')
        let len0 := word.length                             -- int len = end - start;
        let len := if len0 ≥ ARGLEN then ARGLEN - 1 else len0   -- the clamp
        if len > 0 then
          if arglist.length > MAXARGS then .undefined .arglistSlot    -- arglist[argnum++]
          else tokenizeLoop fuel rest (arglist ++ [word.take len])    -- strncpy(…, start, len)
        else tokenizeLoop fuel rest arglist

/-- The function `char** tokenize(char* cmdline)` of shell5.c. -/
def tokenize (cmdline : CStr) : Ret (Option (List CStr)) :=
  match tokenizeLoop (cmdline.length + 1) cmdline [] with
  | .value arglist =>
    if arglist.length > MAXARGS then .undefined .arglistSlot    -- arglist[argnum] = NULL;
    else .value (some arglist)
  | .undefined u => .undefined u
  | .unfinished => .unfinished

end Shell5

namespace Shell6

/-! ## The history of shell6.c -/

/-- The globals `char *command_history[HIST_SIZE]` (NULL is `none`) and `int history_index`. -/
structure History where
  command_history : Nat → Option CStr
  history_index : Nat

/-- The globals at program start. -/
def History.init : History := ⟨fun _ => none, 0⟩

/-- The function `void add_to_history(char *cmdline)`. -/
def add_to_history (cmdline : CStr) (h : History) : History :=
  ⟨fun i => if i = h.history_index then some cmdline else h.command_history i,
    (h.history_index + 1) % HIST_SIZE⟩

/-- The library call `sscanf(s, "%d", &n)` (on values that fit an `int`): optional white
space, an optional sign, at least one digit; `none` when nothing was converted. -/
def scanInt (s : CStr) : Option Int :=
  match s.dropWhile isspace with
  | [] => none
  | c :: cs =>
    if c = '-' ∨ c = '+' then
      match cs with
      | [] => none
      | d :: _ =>
        if d.isDigit then some (if c = '-' then - atoiDigits cs 0 else atoiDigits cs 0)
        else none
    else if c.isDigit then some (atoiDigits (c :: cs) 0)
    else none

/-- The index `repeat_command` computes from the parsed number: `(history_index - 1 +
HIST_SIZE) % HIST_SIZE` for -1, else `(cmd_num - 1) % HIST_SIZE`, with the `%` of C, whose
result has the sign of the dividend. -/
def repeatSlot (history_index : Nat) (cmd_num : Int) : Int :=
  if cmd_num = -1 then Int.tmod ((history_index : Int) - 1 + (HIST_SIZE : Int)) (HIST_SIZE : Int)
  else Int.tmod (cmd_num - 1) (HIST_SIZE : Int)

/-- What a call of `repeat_command` ends in. -/
inductive Repeated where
  /-- the message `Invalid command number` -/
  | invalidNumber
  /-- the message `No command found for that number` -/
  | noCommand
  /-- the stored line was found and `tokenize` returned NULL for it -/
  | nothing (line : CStr)
  /-- the stored line was found: `change_directory(arglist[1])` -/
  | change_directory (line : CStr) (path : Option CStr)
  /-- the stored line was found: `execute(arglist)` -/
  | execute (line : CStr) (arglist : List CStr)
  deriving DecidableEq, Repr

/-- The function `void repeat_command(char *cmdline)`, up to the call it dispatches to. -/
def repeat_command (cmdline : CStr) (h : History) : Ret Repeated :=
  match scanInt (cmdline.drop 1) with                 -- sscanf(cmdline + 1, "%d", &cmd_num)
  | none => .value .invalidNumber
  | some cmd_num =>
    let slot := repeatSlot h.history_index cmd_num
    if slot < 0 ∨ slot ≥ (HIST_SIZE : Int) then .undefined .historySlot   -- command_history[cmd_num]
    else
      match h.command_history slot.toNat with
      | none => .value .noCommand
      | some line =>
        match tokenize line with
        | .undefined u => .undefined u
        | .unfinished => .unfinished
        | .value none => .value (.nothing line)
        | .value (some []) => .undefined .nullString   -- strcmp(arglist[0], "cd")
        | .value (some (cmd :: args)) =>
          if cmd = "cd".toList then .value (.change_directory line args.head?)
          else .value (.execute line (cmd :: args))

end Shell6

/-! ## Lemmas on maximal runs -/

theorem maximalRuns_nil (sep : Char → Bool) : maximalRuns sep [] = [] := by
  simp [maximalRuns, List.splitOnP_nil]

theorem maximalRuns_cons_sep (sep : Char → Bool) (c : Char) (l : CStr) (h : sep c = true) :
    maximalRuns sep (c :: l) = maximalRuns sep l := by
  simp [maximalRuns, List.splitOnP_cons, h]

theorem splitOnP_head_run (sep : Char → Bool) (l : CStr) :
    ∃ rest, l.splitOnP sep = l.takeWhile (fun c => !sep c) :: rest ∧
      rest.filter (fun w => !w.isEmpty) = maximalRuns sep (l.dropWhile (fun c => !sep c)) := by
  induction l with
  | nil => exact ⟨[], by simp [List.splitOnP_nil], by simp [maximalRuns_nil]⟩
  | cons c l ih =>
    obtain ⟨rest, h1, h2⟩ := ih
    by_cases hc : sep c = true
    · refine ⟨l.splitOnP sep, by simp [List.splitOnP_cons, hc], ?_⟩
      simp [hc, maximalRuns, List.splitOnP_cons]
    · simp only [Bool.not_eq_true] at hc
      refine ⟨rest, by simp [List.splitOnP_cons, hc, h1], ?_⟩
      simpa [hc] using h2

theorem maximalRuns_cons_word (sep : Char → Bool) (c : Char) (l : CStr) (h : sep c = false) :
    maximalRuns sep (c :: l) =
      (c :: l).takeWhile (fun c => !sep c) ::
        maximalRuns sep ((c :: l).dropWhile (fun c => !sep c)) := by
  obtain ⟨rest, h1, h2⟩ := splitOnP_head_run sep (c :: l)
  rw [← h2]
  simp only [maximalRuns, h1]
  simp [h]

theorem maximalRuns_dropWhile_sep (sep : Char → Bool) (l : CStr) :
    maximalRuns sep (l.dropWhile sep) = maximalRuns sep l := by
  induction l with
  | nil => rfl
  | cons c l ih =>
    by_cases hc : sep c = true
    · simp [hc, ih, maximalRuns_cons_sep]
    · simp [hc]

/-! ## The tokenizer of shell6.c -/

theorem dropWhile_word_length_lt (start : CStr) (h : start.dropWhile isSpace ≠ []) :
    ((start.dropWhile isSpace).dropWhile (fun c => !isSpace c)).length < start.length := by
  have h1 : (start.dropWhile isSpace).length ≤ start.length :=
    (List.dropWhile_sublist _).length_le
  cases hs : start.dropWhile isSpace with
  | nil => exact absurd hs h
  | cons c l =>
    have hc : isSpace c = false := by
      have := List.head_dropWhile_not isSpace start (by rw [hs]; simp)
      simpa [hs] using this
    have h2 : (l.dropWhile (fun c => !isSpace c)).length ≤ l.length :=
      (List.dropWhile_sublist _).length_le
    rw [hs] at h1
    simp only [List.dropWhile_cons, hc, Bool.not_false, if_true, List.length_cons] at h1 ⊢
    omega

theorem tokenizeLoop_eq_runs (fuel : Nat) :
    ∀ (start : CStr) (arglist : List CStr), start.length < fuel →
      (arglist ++ maximalRuns isSpace start).length ≤ MAXARGS + 1 →
      (∀ w ∈ maximalRuns isSpace start, w.length < ARGLEN) →
      Shell6.tokenizeLoop fuel start arglist = .value (arglist ++ maximalRuns isSpace start) := by
  induction fuel with
  | zero => intro start arglist h; omega
  | succ fuel ih =>
    intro start arglist hfuel hargs hlen
    have hfun1 : (fun c : Char => c == ' ') = isSpace := rfl
    have hfun2 : (fun c : Char => c != ' ') = (fun c => !isSpace c) := rfl
    unfold Shell6.tokenizeLoop
    simp only [hfun1, hfun2]
    by_cases h0 : start = []
    · subst h0; simp [maximalRuns_nil]
    · have h0b : start.isEmpty = false := by cases start <;> simp_all
      rw [if_neg (by simp [h0b])]
      have hruns : maximalRuns isSpace start = maximalRuns isSpace (start.dropWhile isSpace) :=
        (maximalRuns_dropWhile_sep isSpace start).symm
      by_cases h1 : start.dropWhile isSpace = []
      · rw [hruns, h1]; simp [maximalRuns_nil]
      · have hlt := dropWhile_word_length_lt start h1
        cases hs : start.dropWhile isSpace with
        | nil => exact absurd hs h1
        | cons c l =>
          have hc : isSpace c = false := by
            have := List.head_dropWhile_not isSpace start (by rw [hs]; simp)
            simpa [hs] using this
          have hword := maximalRuns_cons_word isSpace c l hc
          rw [hs] at hlt hruns
          rw [hruns, hword] at hargs hlen ⊢
          have hwl : ((c :: l).takeWhile (fun c => !isSpace c)).length < ARGLEN :=
            hlen _ (List.mem_cons_self _ _)
          have hwpos : 0 < ((c :: l).takeWhile (fun c => !isSpace c)).length := by
            simp [List.takeWhile_cons, hc]
          have hcount : ¬ arglist.length > MAXARGS := by
            simp only [List.length_append, List.length_cons] at hargs
            omega
          simp only [List.isEmpty_cons, Bool.false_eq_true, if_false, hwpos, if_true, hcount,
            ge_iff_le, not_le.mpr hwl]
          rw [ih _ _ (by omega) (by simpa using hargs)
            (fun w hw => hlen w (List.mem_cons_of_mem _ hw))]
          simp

/-- C1, as stated, fails: on the line `a<TAB>b` (non-empty, two words separated by a tab, no
operator token) the maximal non-whitespace runs are `a` and `b`, but `tokenize` of shell6.c
returns the single token `a<TAB>b`. -/
theorem tokenize_tab_not_split :
    "a\tb".toList ≠ [] ∧
    (∀ w ∈ maximalRuns isWhitespace "a\tb".toList, w ∉ operatorTokens) ∧
    maximalRuns isWhitespace "a\tb".toList = ["a".toList, "b".toList] ∧
    Shell6.tokenize "a\tb".toList = .value (some ["a\tb".toList]) ∧
    Shell6.tokenize "a\tb".toList ≠ .value (some (maximalRuns isWhitespace "a\tb".toList)) := by
  decide

/-- C1, amended: for every line whose words are separated by runs of spaces (leading and
trailing spaces allowed; a tab is an ordinary character of a word), with at most `MAXARGS`
words of at most `ARGLEN - 1` characters each, `tokenize` of shell6.c returns a vector (not
NULL) holding exactly the maximal space-free runs of the line, in their order. -/
theorem tokenize_space_separated (line : CStr)
    (hargs : (maximalRuns isSpace line).length ≤ MAXARGS)
    (hlen : ∀ w ∈ maximalRuns isSpace line, w.length < ARGLEN) :
    Shell6.tokenize line = .value (some (maximalRuns isSpace line)) := by
  unfold Shell6.tokenize
  rw [tokenizeLoop_eq_runs _ line [] (Nat.lt_succ_self _) (by simpa using Nat.le_succ_of_le hargs)
    hlen]
  simp only [List.nil_append]
  rw [if_neg (by omega)]

theorem tokenize_space_separated_witness :
    (maximalRuns isSpace "  ls -l\t  /tmp ".toList).length ≤ MAXARGS ∧
    (∀ w ∈ maximalRuns isSpace "  ls -l\t  /tmp ".toList, w.length < ARGLEN) ∧
    Shell6.tokenize "  ls -l\t  /tmp ".toList
      = .value (some ["ls".toList, "-l\t".toList, "/tmp".toList]) :=
  ⟨by decide, by decide,
    tokenize_space_separated "  ls -l\t  /tmp ".toList (by decide) (by decide)⟩

/-- C5: on the empty line and on a line of spaces `tokenize` of shell6.c does not return
NULL: it returns a vector whose first slot is NULL, and the loop body of `main` then hands
that NULL first slot to `strcmp`. -/
theorem blank_line_reaches_strcmp :
    Shell6.tokenize [] = .value (some []) ∧
    Shell6.tokenize "   ".toList = .value (some []) ∧
    Shell6.mainDispatch [] = .undefined .nullString ∧
    Shell6.mainDispatch "   ".toList = .undefined .nullString ∧
    Shell6.mainDispatch [] ≠ .value .nothing := by
  decide

/-! ## The launcher of shell6.c -/

theorem argvOf_slotsOf (toks : List CStr) : argvOf (slotsOf toks) = toks := by
  induction toks with
  | nil => rfl
  | cons tok rest ih => simpa [slotsOf, argvOf] using ih

theorem argvOf_set_none (slots : List (Option CStr)) :
    ∀ k, argvOf (slots.set k none) = (argvOf slots).take k := by
  induction slots with
  | nil => intro k; simp [argvOf]
  | cons s rest ih =>
    intro k
    cases k with
    | zero => simp [argvOf]
    | succ k =>
      cases s with
      | none => simp [argvOf]
      | some tok => simp [argvOf, ih k]

theorem scanLoop_fst (toks : List CStr) :
    ∀ i a b, (Shell6.scanLoop toks i a b).1 = i + toks.length := by
  induction toks with
  | nil => intro i a b; rfl
  | cons tok rest ih =>
    intro i a b
    unfold Shell6.scanLoop
    split_ifs <;> rw [ih] <;> simp <;> omega

theorem scanLoop_in_absent (toks : List CStr) (h : "<".toList ∉ toks) :
    ∀ i a b, (Shell6.scanLoop toks i a b).2.1 = a := by
  induction toks with
  | nil => intro i a b; rfl
  | cons tok rest ih =>
    intro i a b
    have h1 : tok ≠ "<".toList := fun e => h (e ▸ List.mem_cons_self _ _)
    have h2 : "<".toList ∉ rest := fun m => h (List.mem_cons_of_mem _ m)
    unfold Shell6.scanLoop
    rw [if_neg h1]
    split_ifs <;> exact ih h2 _ _ _

theorem scanLoop_out_absent (toks : List CStr) (h : ">".toList ∉ toks) :
    ∀ i a b, (Shell6.scanLoop toks i a b).2.2 = b := by
  induction toks with
  | nil => intro i a b; rfl
  | cons tok rest ih =>
    intro i a b
    have h1 : tok ≠ ">".toList := fun e => h (e ▸ List.mem_cons_self _ _)
    have h2 : ">".toList ∉ rest := fun m => h (List.mem_cons_of_mem _ m)
    unfold Shell6.scanLoop
    rw [if_neg h1]
    split_ifs <;> exact ih h2 _ _ _

theorem scanLoop_in_unique (toks : List CStr) :
    ∀ i a b, toks.count "<".toList ≤ 1 → ∀ j, toks[j]? = some "<".toList →
      (Shell6.scanLoop toks i a b).2.1 = some (i + j) := by
  induction toks with
  | nil => intro i a b _ j hj; simp at hj
  | cons tok rest ih =>
    intro i a b hc j hj
    unfold Shell6.scanLoop
    by_cases h1 : tok = "<".toList
    · rw [if_pos h1]
      have hrest : "<".toList ∉ rest := by
        intro hm
        have := List.count_pos_iff.mpr hm
        rw [h1, List.count_cons_self] at hc
        omega
      rw [scanLoop_in_absent rest hrest]
      cases j with
      | zero => rfl
      | succ j =>
        simp only [List.getElem?_cons_succ] at hj
        exact absurd (List.getElem?_mem hj) hrest
    · rw [if_neg h1]
      have hc2 : rest.count "<".toList ≤ 1 := by
        rw [List.count_cons_of_ne (Ne.symm h1)] at hc
        exact hc
      cases j with
      | zero => simp at hj; exact absurd hj h1
      | succ j =>
        simp only [List.getElem?_cons_succ] at hj
        have := fun a b => ih (i + 1) a b hc2 j hj
        split_ifs <;> rw [this] <;> congr 1 <;> omega

theorem scanLoop_out_unique (toks : List CStr) :
    ∀ i a b, toks.count ">".toList ≤ 1 → ∀ j, toks[j]? = some ">".toList →
      (Shell6.scanLoop toks i a b).2.2 = some (i + j) := by
  induction toks with
  | nil => intro i a b _ j hj; simp at hj
  | cons tok rest ih =>
    intro i a b hc j hj
    have hne : "<".toList ≠ ">".toList := by decide
    unfold Shell6.scanLoop
    by_cases h1 : tok = ">".toList
    · rw [if_neg (by rw [h1]; exact Ne.symm hne), if_pos h1]
      have hrest : ">".toList ∉ rest := by
        intro hm
        have := List.count_pos_iff.mpr hm
        rw [h1, List.count_cons_self] at hc
        omega
      rw [scanLoop_out_absent rest hrest]
      cases j with
      | zero => rfl
      | succ j =>
        simp only [List.getElem?_cons_succ] at hj
        exact absurd (List.getElem?_mem hj) hrest
    · rw [if_neg h1]
      have hc2 : rest.count ">".toList ≤ 1 := by
        rw [List.count_cons_of_ne (Ne.symm h1)] at hc
        exact hc
      cases j with
      | zero => simp at hj; exact absurd hj h1
      | succ j =>
        simp only [List.getElem?_cons_succ] at hj
        have := fun a b => ih (i + 1) a b hc2 j hj
        split_ifs <;> rw [this] <;> congr 1 <;> omega

theorem execChild_execvp (os : OS) (msg : String) (slots : List (Option CStr)) (first : Nat)
    (file : Option CStr) (argv : List CStr)
    (h : Event.execvp file argv ∈ (execChild os msg slots first).1) :
    file = slots.getD first none ∧ argv = argvOf (slots.drop first) := by
  unfold execChild at h
  dsimp only at h
  split_ifs at h <;> simp at h <;> exact ⟨by simpa using h.1, h.2⟩

theorem applyRedirect_no_execvp (os : OS) (write : Bool) (redirect : Option Nat)
    (slots : List (Option CStr)) (file : Option CStr) (argv : List CStr) :
    Event.execvp file argv ∉ (applyRedirect os write redirect slots).1 := by
  unfold applyRedirect
  cases redirect with
  | none => simp
  | some k => simp only []; split_ifs <;> simp

theorem applyRedirect_slots (os : OS) (write : Bool) (redirect : Option Nat)
    (slots slots1 : List (Option CStr))
    (h : (applyRedirect os write redirect slots).2 = some slots1) :
    ∃ k, argvOf slots1 = (argvOf slots).take k ∧ ∀ p, redirect = some p → k ≤ p := by
  unfold applyRedirect at h
  cases redirect with
  | none =>
    simp only [Option.some.injEq] at h
    subst h
    exact ⟨(argvOf slots).length, by simp, by simp⟩
  | some q =>
    dsimp only at h
    by_cases hfd : sysOpen os (slots.getD (q + 1) none) write < 0
    · rw [if_pos hfd] at h
      cases h
    · rw [if_neg hfd] at h
      simp only [Option.some.injEq] at h
      subst h
      exact ⟨q, argvOf_set_none slots q, by simp⟩

theorem launchChild_execvp (os : OS) (a b : Option Nat) (slots : List (Option CStr))
    (file : Option CStr) (argv : List CStr)
    (h : Event.execvp file argv ∈ (launchChild os a b slots).1) :
    ∃ k, argv = (argvOf slots).take k ∧ (∀ p, a = some p → k ≤ p) ∧ (∀ p, b = some p → k ≤ p) := by
  unfold launchChild at h
  have n1 := applyRedirect_no_execvp os false a slots file argv
  rcases h1 : applyRedirect os false a slots with ⟨ev1, s1⟩
  rw [h1] at h n1
  cases s1 with
  | none => exact absurd h n1
  | some slots1 =>
    obtain ⟨k1, hk1, hp1⟩ := applyRedirect_slots os false a slots slots1 (by rw [h1])
    have n2 := applyRedirect_no_execvp os true b slots1 file argv
    dsimp only at h
    rcases h2 : applyRedirect os true b slots1 with ⟨ev2, s2⟩
    rw [h2] at h n2
    dsimp only at h n1 n2
    cases s2 with
    | none =>
      simp only [List.mem_append] at h
      rcases h with h | h
      · exact absurd h n1
      · exact absurd h n2
    | some slots2 =>
      obtain ⟨k2, hk2, hp2⟩ := applyRedirect_slots os true b slots1 slots2 (by rw [h2])
      simp only [List.mem_append] at h
      rcases h with (h | h) | h
      · exact absurd h n1
      · exact absurd h n2
      · obtain ⟨-, hargv⟩ := execChild_execvp _ _ _ _ _ _ h
        refine ⟨min k1 k2, ?_, fun p hp => le_trans (min_le_left _ _) (hp1 p hp),
          fun p hp => le_trans (min_le_right _ _) (hp2 p hp)⟩
        rw [hargv, List.drop_zero, hk2, hk1, List.take_take, min_comm]

theorem executeParent_no_execvp (os : OS) (cpid : Int) (background : Bool)
    (slots : List (Option CStr)) (t : JobTable) (file : Option CStr) (argv : List CStr) :
    Event.execvp file argv ∉ (Shell6.executeParent os cpid background slots t).trace := by
  unfold Shell6.executeParent
  split_ifs
  · simp
  · cases slots.getD 0 none <;> simp
  · simp

theorem backgroundStep_argv (toks : List CStr) (i : Nat) :
    ∃ k, argvOf (Shell6.backgroundStep (slotsOf toks) i).2 = toks.take k := by
  unfold Shell6.backgroundStep
  split_ifs
  · exact ⟨i - 1, by rw [argvOf_set_none, argvOf_slotsOf]⟩
  · exact ⟨toks.length, by simp [argvOf_slotsOf]⟩

/-- C2, as stated, fails: for `cat < a < b` only the last `<` is cut out of the vector, and
the child calls `execvp` with the arguments `cat`, `<`, `a`. -/
theorem execvp_gets_first_redirection :
    Event.execvp (some "cat".toList) ["cat".toList, "<".toList, "a".toList] ∈
      (Shell6.execute (quietOS 0)
        ["cat".toList, "<".toList, "a".toList, "<".toList, "b".toList] JobTable.init).trace := by
  decide

/-- C2, amended: for every token vector with at most one `<` token and at most one `>` token,
the vector that `execute` of shell6.c hands to `execvp` is a front part of the token vector
that ends before the first redirection operator: it holds no `<` or `>` token and no token
that follows one. -/
theorem execvp_argv_excludes_redirection (os : OS) (toks : List CStr) (t : JobTable)
    (file : Option CStr) (argv : List CStr)
    (hin : toks.count "<".toList ≤ 1) (hout : toks.count ">".toList ≤ 1)
    (hev : Event.execvp file argv ∈ (Shell6.execute os toks t).trace) :
    (∀ tok ∈ argv, tok ≠ "<".toList ∧ tok ≠ ">".toList) ∧
    ∃ k, argv = toks.take k ∧ ∀ j, j < k →
      toks[j]? ≠ some "<".toList ∧ toks[j]? ≠ some ">".toList ∧
      toks[j - 1]? ≠ some "<".toList ∧ toks[j - 1]? ≠ some ">".toList := by
  have key : ∃ k, argv = toks.take k ∧
      (∀ j, toks[j]? = some "<".toList → k ≤ j) ∧ (∀ j, toks[j]? = some ">".toList → k ≤ j) := by
    unfold Shell6.execute at hev
    have hI := fun j => scanLoop_in_unique toks 0 none none hin j
    have hO := fun j => scanLoop_out_unique toks 0 none none hout j
    rcases hscan : Shell6.scanLoop toks 0 none none with ⟨i, inR, outR⟩
    rw [hscan] at hev hI hO
    dsimp only at hev hI hO
    obtain ⟨k0, hk0⟩ := backgroundStep_argv toks i
    rcases hbg : Shell6.backgroundStep (slotsOf toks) i with ⟨bg, slots⟩
    rw [hbg] at hev hk0
    dsimp only at hev hk0
    split_ifs at hev with h0 hc
    · simp at hev
    · simp only [List.mem_cons] at hev
      rcases hev with hev | hev
      · cases hev
      · obtain ⟨k, hk, hp1, hp2⟩ := launchChild_execvp _ _ _ _ _ _ hev
        refine ⟨min k0 k, ?_, fun j hj => ?_, fun j hj => ?_⟩
        · rw [hk, hk0, List.take_take, min_comm]
        · exact le_trans (min_le_right _ _) (hp1 j (by simpa using hI j hj))
        · exact le_trans (min_le_right _ _) (hp2 j (by simpa using hO j hj))
    · exact absurd hev (executeParent_no_execvp _ _ _ _ _ _ _)
  obtain ⟨k, hk, h1, h2⟩ := key
  constructor
  · intro tok htok
    rw [hk] at htok
    obtain ⟨j, hj⟩ := List.mem_iff_getElem?.mp htok
    have hjk : j < k := by
      by_contra hge
      rw [List.getElem?_take_eq_none (by omega)] at hj
      cases hj
    rw [List.getElem?_take_of_lt hjk] at hj
    constructor
    · rintro rfl; exact absurd (h1 j hj) (by omega)
    · rintro rfl; exact absurd (h2 j hj) (by omega)
  · refine ⟨k, hk, fun j hj => ⟨fun e => ?_, fun e => ?_, fun e => ?_, fun e => ?_⟩⟩
    · exact absurd (h1 j e) (by omega)
    · exact absurd (h2 j e) (by omega)
    · exact absurd (h1 _ e) (by omega)
    · exact absurd (h2 _ e) (by omega)

theorem execvp_argv_excludes_redirection_witness :
    Event.execvp (some "sort".toList) ["sort".toList] ∈
      (Shell6.execute (quietOS 0)
        ["sort".toList, "<".toList, "in".toList, ">".toList, "out".toList] JobTable.init).trace ∧
    ((∀ tok ∈ ["sort".toList], tok ≠ "<".toList ∧ tok ≠ ">".toList) ∧
    ∃ k, ["sort".toList] =
        ["sort".toList, "<".toList, "in".toList, ">".toList, "out".toList].take k ∧
      ∀ j, j < k →
        ["sort".toList, "<".toList, "in".toList, ">".toList, "out".toList][j]? ≠ some "<".toList ∧
        ["sort".toList, "<".toList, "in".toList, ">".toList, "out".toList][j]? ≠ some ">".toList ∧
        ["sort".toList, "<".toList, "in".toList, ">".toList, "out".toList][j - 1]?
          ≠ some "<".toList ∧
        ["sort".toList, "<".toList, "in".toList, ">".toList, "out".toList][j - 1]?
          ≠ some ">".toList) :=
  ⟨by decide,
    execvp_argv_excludes_redirection (quietOS 0)
      ["sort".toList, "<".toList, "in".toList, ">".toList, "out".toList] JobTable.init
      (some "sort".toList) ["sort".toList] (by decide) (by decide) (by decide)⟩

theorem slotsOf_getD (toks : List CStr) (k : Nat) :
    (slotsOf toks).getD k none = toks[k]? := by
  unfold slotsOf
  rw [List.getD_eq_getElem?_getD]
  by_cases hk : k < toks.length
  · rw [List.getElem?_append_left (by simpa using hk)]
    simp [List.getElem?_eq_getElem hk]
  · rw [List.getElem?_eq_none (by omega : toks.length ≤ k)]
    rw [List.getElem?_append_right (by simpa using (by omega : toks.length ≤ k))]
    cases h : k - (List.map some toks).length <;> simp

theorem backgroundStep_flag (toks : List CStr) :
    (Shell6.backgroundStep (slotsOf toks) toks.length).1 = true ↔
      toks.getLast? = some "&".toList := by
  unfold Shell6.backgroundStep
  rw [slotsOf_getD, List.getLast?_eq_getElem?]
  split_ifs with h
  · simpa using h
  · simpa using h

theorem executeParent_waits (os : OS) (cpid : Int) (background : Bool)
    (slots : List (Option CStr)) (t : JobTable) :
    (∃ pid, Event.waitpid pid 0 ∈ (Shell6.executeParent os cpid background slots t).trace) ↔
      background = false := by
  unfold Shell6.executeParent
  cases background
  · simp
  · simp only [if_true]
    split_ifs
    · simp
    · cases slots.getD 0 none <;> simp

/-- C3: for every non-empty token vector, the step of `execute` (shell6.c) that follows the
scan sets the background flag exactly when the last token is `&`; when it sets the flag the
vector left for execution is the token vector without its last token, otherwise the slot
array is untouched.  In the parent the flag shows: `execute` waits for the child exactly when
the last token is not `&`. -/
theorem background_flag_iff_trailing_amp (os : OS) (toks : List CStr) (t : JobTable)
    (hne : toks ≠ []) :
    ((Shell6.backgroundStep (slotsOf toks) (Shell6.scanLoop toks 0 none none).1).1 = true ↔
      toks.getLast? = some "&".toList) ∧
    ((Shell6.backgroundStep (slotsOf toks) (Shell6.scanLoop toks 0 none none).1).1 = true →
      argvOf (Shell6.backgroundStep (slotsOf toks) (Shell6.scanLoop toks 0 none none).1).2
        = toks.dropLast) ∧
    ((Shell6.backgroundStep (slotsOf toks) (Shell6.scanLoop toks 0 none none).1).1 = false →
      (Shell6.backgroundStep (slotsOf toks) (Shell6.scanLoop toks 0 none none).1).2
        = slotsOf toks) ∧
    (os.fork 0 ≠ 0 →
      ((∃ pid, Event.waitpid pid 0 ∈ (Shell6.execute os toks t).trace) ↔
        toks.getLast? ≠ some "&".toList)) := by
  have hi : (Shell6.scanLoop toks 0 none none).1 = toks.length := by
    rw [scanLoop_fst]; omega
  have hflag := backgroundStep_flag toks
  have hlen : toks.length ≠ 0 := fun h => hne (List.length_eq_zero.mp h)
  refine ⟨by rw [hi]; exact hflag, ?_, ?_, ?_⟩
  · rw [hi]
    intro h
    unfold Shell6.backgroundStep at h ⊢
    split_ifs at h ⊢
    rw [argvOf_set_none, argvOf_slotsOf, List.dropLast_eq_take]
  · rw [hi]
    intro h
    unfold Shell6.backgroundStep at h ⊢
    split_ifs at h ⊢
    rfl
  · intro hfork
    unfold Shell6.execute
    rcases hscan : Shell6.scanLoop toks 0 none none with ⟨i, inR, outR⟩
    rw [hscan] at hi
    dsimp only at hi ⊢
    subst hi
    rcases hbg : Shell6.backgroundStep (slotsOf toks) toks.length with ⟨bg, slots⟩
    rw [hbg] at hflag
    dsimp only at hflag ⊢
    rw [if_neg hlen, if_neg hfork, executeParent_waits]
    constructor
    · intro hb hlast
      rw [hflag.mpr hlast] at hb
      cases hb
    · intro hlast
      cases bg
      · rfl
      · exact absurd (hflag.mp rfl) hlast

theorem background_flag_iff_trailing_amp_witness :
    ["sleep".toList, "5".toList, "&".toList] ≠ [] ∧
    (Shell6.backgroundStep (slotsOf ["sleep".toList, "5".toList, "&".toList])
        (Shell6.scanLoop ["sleep".toList, "5".toList, "&".toList] 0 none none).1
      = (true, [some "sleep".toList, some "5".toList, none, none])) ∧
    ((Shell6.backgroundStep (slotsOf ["sleep".toList, "5".toList, "&".toList])
        (Shell6.scanLoop ["sleep".toList, "5".toList, "&".toList] 0 none none).1).1 = true ↔
      ["sleep".toList, "5".toList, "&".toList].getLast? = some "&".toList) :=
  ⟨by decide, by decide,
    (background_flag_iff_trailing_amp (quietOS 77) ["sleep".toList, "5".toList, "&".toList]
      JobTable.init (by decide)).1⟩

theorem scanLoop_append (l1 l2 : List CStr) :
    ∀ i a b, Shell6.scanLoop (l1 ++ l2) i a b =
      Shell6.scanLoop l2 (i + l1.length) (Shell6.scanLoop l1 i a b).2.1
        (Shell6.scanLoop l1 i a b).2.2 := by
  induction l1 with
  | nil => intro i a b; rfl
  | cons tok rest ih =>
    intro i a b
    have e : i + (tok :: rest).length = i + 1 + rest.length := by simp; omega
    rw [e]
    simp only [List.cons_append, Shell6.scanLoop]
    split_ifs <;> exact ih _ _ _

theorem getD_set_none_of_none (slots : List (Option CStr)) (p k : Nat)
    (h : slots.getD k none = none) : (slots.set p none).getD k none = none := by
  rw [List.getD_eq_getElem?_getD] at h ⊢
  rw [List.getElem?_set]
  split_ifs with h1 h2
  · rfl
  · rfl
  · exact h

theorem applyRedirect_missing (os : OS) (write : Bool) (n : Nat) (slots : List (Option CStr))
    (h : slots.getD (n + 1) none = none) : (applyRedirect os write (some n) slots).2 = none := by
  unfold applyRedirect
  dsimp only
  rw [h]
  rw [if_pos (by simp [sysOpen])]

theorem applyRedirect_keeps_none (os : OS) (write : Bool) (redirect : Option Nat)
    (slots slots1 : List (Option CStr)) (k : Nat) (hk : slots.getD k none = none)
    (h : (applyRedirect os write redirect slots).2 = some slots1) :
    slots1.getD k none = none := by
  unfold applyRedirect at h
  cases redirect with
  | none =>
    simp only [Option.some.injEq] at h
    subst h
    exact hk
  | some q =>
    dsimp only at h
    by_cases hfd : sysOpen os (slots.getD (q + 1) none) write < 0
    · rw [if_pos hfd] at h
      cases h
    · rw [if_neg hfd] at h
      simp only [Option.some.injEq] at h
      subst h
      exact getD_set_none_of_none slots q k hk

theorem launchChild_missing (os : OS) (a b : Option Nat) (n : Nat) (slots : List (Option CStr))
    (hn : a = some n ∨ b = some n) (h : slots.getD (n + 1) none = none) :
    (launchChild os a b slots).2 = .exited 1 ∧
    ∀ file argv, Event.execvp file argv ∉ (launchChild os a b slots).1 := by
  unfold launchChild
  have n1 := fun file argv => applyRedirect_no_execvp os false a slots file argv
  have m1 := fun hh => applyRedirect_missing os false n slots hh
  have k1 := fun slots1 => applyRedirect_keeps_none os false a slots slots1 (n + 1) h
  rcases h1 : applyRedirect os false a slots with ⟨ev1, s1⟩
  rw [h1] at n1 k1
  cases s1 with
  | none => exact ⟨rfl, n1⟩
  | some slots1 =>
    have hb : b = some n := by
      rcases hn with hn | hn
      · subst hn
        rw [h1] at m1
        exact absurd (m1 h) (by simp)
      · exact hn
    subst hb
    have h2 := applyRedirect_missing os true n slots1 (k1 slots1 rfl)
    have n2 := fun file argv => applyRedirect_no_execvp os true (some n) slots1 file argv
    dsimp only
    rcases h3 : applyRedirect os true (some n) slots1 with ⟨ev2, s2⟩
    rw [h3] at h2 n2
    dsimp only at h2 n1 n2
    subst h2
    refine ⟨rfl, fun file argv hm => ?_⟩
    dsimp only at hm
    rcases List.mem_append.mp hm with hm | hm
    · exact n1 _ _ hm
    · exact n2 _ _ hm

theorem missing_operand_shape (toks : List CStr)
    (hop : (stripAmp toks).getLast? = some "<".toList ∨
      (stripAmp toks).getLast? = some ">".toList) :
    toks.length ≠ 0 ∧ ∃ n,
      ((Shell6.scanLoop toks 0 none none).2.1 = some n ∨
        (Shell6.scanLoop toks 0 none none).2.2 = some n) ∧
      (Shell6.backgroundStep (slotsOf toks) toks.length).2.getD (n + 1) none = none := by
  have hshape : ∃ pre op suf, toks = pre ++ ([op] ++ suf) ∧
      (op = "<".toList ∨ op = ">".toList) ∧ (suf = [] ∨ suf = ["&".toList]) := by
    unfold stripAmp at hop
    split_ifs at hop with hamp
    · obtain ⟨ys, hys⟩ := List.getLast?_eq_some_iff.mp hamp
      subst hys
      rw [List.dropLast_concat] at hop
      rcases hop with hop | hop
      · obtain ⟨pre, hpre⟩ := List.getLast?_eq_some_iff.mp hop
        exact ⟨pre, _, ["&".toList], by rw [hpre]; simp, Or.inl rfl, Or.inr rfl⟩
      · obtain ⟨pre, hpre⟩ := List.getLast?_eq_some_iff.mp hop
        exact ⟨pre, _, ["&".toList], by rw [hpre]; simp, Or.inr rfl, Or.inr rfl⟩
    · rcases hop with hop | hop
      · obtain ⟨pre, hpre⟩ := List.getLast?_eq_some_iff.mp hop
        exact ⟨pre, _, [], by rw [hpre]; simp, Or.inl rfl, Or.inl rfl⟩
      · obtain ⟨pre, hpre⟩ := List.getLast?_eq_some_iff.mp hop
        exact ⟨pre, _, [], by rw [hpre]; simp, Or.inr rfl, Or.inl rfl⟩
  obtain ⟨pre, op, suf, rfl, hopv, hsuf⟩ := hshape
  refine ⟨by simp, pre.length, ?_, ?_⟩
  · rw [scanLoop_append]
    rcases hopv with rfl | rfl <;> rcases hsuf with rfl | rfl
    · left; simp [Shell6.scanLoop]
    · left; simp [Shell6.scanLoop]
    · right; simp [Shell6.scanLoop]
    · right; simp [Shell6.scanLoop]
  · unfold Shell6.backgroundStep
    rcases hsuf with rfl | rfl
    · have e : (slotsOf (pre ++ ([op] ++ []))).getD (pre.length + 1) none = none := by
        rw [slotsOf_getD]; simp
      split_ifs
      · exact getD_set_none_of_none _ _ _ e
      · exact e
    · have hl : (pre ++ ([op] ++ ["&".toList])).length - 1 = pre.length + 1 := by simp
      have e : (slotsOf (pre ++ ([op] ++ ["&".toList]))).getD (pre.length + 1) none
          = some "&".toList := by
        rw [slotsOf_getD, List.getElem?_append_right (by omega)]
        simp
      rw [hl, if_pos e]
      dsimp only
      rw [List.getD_eq_getElem?_getD, List.getElem?_set_eq_of_lt]
      · rfl
      · simp [slotsOf]

theorem stripAmp_ne_nil (toks : List CStr) (op : CStr)
    (h : (stripAmp toks).getLast? = some op) : toks ≠ [] := by
  rintro rfl
  simp [stripAmp] at h

theorem executeParent_trace_head (os : OS) (cpid : Int) (background : Bool)
    (slots : List (Option CStr)) (t : JobTable) :
    (Shell6.executeParent os cpid background slots t).trace.head? = some (.fork cpid) := by
  unfold Shell6.executeParent
  split_ifs
  · rfl
  · cases slots.getD 0 none <;> rfl
  · rfl

theorem execute_trace_head (os : OS) (toks : List CStr) (t : JobTable) (hne : toks ≠ []) :
    (Shell6.execute os toks t).trace.head? = some (.fork (os.fork 0)) := by
  have hi : (Shell6.scanLoop toks 0 none none).1 = toks.length := by
    rw [scanLoop_fst]; omega
  have hlen : toks.length ≠ 0 := fun h => hne (List.length_eq_zero.mp h)
  unfold Shell6.execute
  rcases hscan : Shell6.scanLoop toks 0 none none with ⟨i, inR, outR⟩
  rw [hscan] at hi
  dsimp only at hi ⊢
  subst hi
  rcases hbg : Shell6.backgroundStep (slotsOf toks) toks.length with ⟨bg, slots⟩
  dsimp only
  rw [if_neg hlen]
  split_ifs
  · rfl
  · exact executeParent_trace_head _ _ _ _ _

theorem execute_parent_foreground (os : OS) (toks : List CStr) (t : JobTable) (hne : toks ≠ [])
    (hfork : os.fork 0 ≠ 0) (hlast : toks.getLast? ≠ some "&".toList) :
    (Shell6.execute os toks t).trace =
      [.fork (os.fork 0), .waitpid (os.fork 0) 0,
        .printf "Child exited with status %d\n" [.int (os.waitStatus (os.fork 0) >>> 8)]] ∧
    (Shell6.execute os toks t).outcome = .returned 0 := by
  have hi : (Shell6.scanLoop toks 0 none none).1 = toks.length := by
    rw [scanLoop_fst]; omega
  have hlen : toks.length ≠ 0 := fun h => hne (List.length_eq_zero.mp h)
  have hflag := backgroundStep_flag toks
  unfold Shell6.execute
  rcases hscan : Shell6.scanLoop toks 0 none none with ⟨i, inR, outR⟩
  rw [hscan] at hi
  dsimp only at hi ⊢
  subst hi
  rcases hbg : Shell6.backgroundStep (slotsOf toks) toks.length with ⟨bg, slots⟩
  rw [hbg] at hflag
  dsimp only at hflag ⊢
  rw [if_neg hlen, if_neg hfork]
  have hb : bg = false := by
    cases bg
    · rfl
    · exact absurd (hflag.mp rfl) hlast
  subst hb
  exact ⟨rfl, rfl⟩

theorem execute_child_missing (os : OS) (toks : List CStr) (t : JobTable)
    (hop : (stripAmp toks).getLast? = some "<".toList ∨
      (stripAmp toks).getLast? = some ">".toList)
    (hfork : os.fork 0 = 0) :
    (Shell6.execute os toks t).outcome = .exited 1 ∧
    ∀ file argv, Event.execvp file argv ∉ (Shell6.execute os toks t).trace := by
  obtain ⟨hlen, n, hn, hslot⟩ := missing_operand_shape toks hop
  have hi : (Shell6.scanLoop toks 0 none none).1 = toks.length := by
    rw [scanLoop_fst]; omega
  unfold Shell6.execute
  rcases hscan : Shell6.scanLoop toks 0 none none with ⟨i, inR, outR⟩
  rw [hscan] at hi hn
  dsimp only at hi hn ⊢
  subst hi
  rcases hbg : Shell6.backgroundStep (slotsOf toks) toks.length with ⟨bg, slots⟩
  rw [hbg] at hslot
  dsimp only at hslot ⊢
  rw [if_neg hlen, if_pos hfork]
  obtain ⟨h1, h2⟩ := launchChild_missing os inR outR n slots hn hslot
  refine ⟨h1, fun file argv hm => ?_⟩
  rcases List.mem_cons.mp hm with hm | hm
  · cases hm
  · exact h2 _ _ hm

theorem shell2_parent_returns (os : OS) (toks : List CStr) (hpipe : os.pipe.1 ≠ -1)
    (h0 : 0 < os.fork 0) (h1 : os.fork 1 ≠ 0) :
    Event.fork (os.fork 0) ∈ (Shell2.execute os toks).trace ∧
    (Shell2.execute os toks).outcome = .returned 0 := by
  unfold Shell2.execute
  rcases Shell2.scanLoop toks 0 none none none with ⟨inR, outR, pipeFound⟩
  dsimp only
  cases pipeFound with
  | none =>
    dsimp only
    rw [if_neg (by omega)]
    exact ⟨by simp, rfl⟩
  | some p =>
    dsimp only
    unfold Shell2.executePipe
    rcases hp : os.pipe with ⟨ret, rfd, wfd⟩
    rw [hp] at hpipe
    dsimp only at hpipe ⊢
    rw [if_neg hpipe, if_neg (by omega), if_neg (by omega), if_neg h1]
    exact ⟨by simp, rfl⟩

/-- C4, as stated, fails: for `cat <` the parent side of `execute` (shell6.c) calls `fork`,
waits, and returns 0 with nothing written to the error stream; for `ls |` `execute` of
shell2.c calls `pipe`, forks twice and returns 0. -/
theorem missing_operand_spawns :
    (stripAmp ["cat".toList, "<".toList]).getLast? = some "<".toList ∧
    (Shell6.execute (quietOS 1234) ["cat".toList, "<".toList] JobTable.init).trace =
      [.fork 1234, .waitpid 1234 0, .printf "Child exited with status %d\n" [.int 0]] ∧
    (Shell6.execute (quietOS 1234) ["cat".toList, "<".toList] JobTable.init).outcome
      = .returned 0 ∧
    Shell2.execute (quietOS 1234) ["ls".toList, "|".toList] =
      ⟨[.pipe 0, .fork 1234, .waitpid 1234 0, .fork 1235, .close 3, .close 4, .waitpid 1235 0],
        .returned 0⟩ := by
  decide

/-- C4, amended: for every token vector whose last token, after a trailing `&` is taken off,
is `<`, `>` or `|`, `execute` does not detect the missing operand and reports no error of its
own.  In shell6.c its first call is `fork`; the parent of a foreground command only waits and
returns 0; when the operator is `<` or `>` the child ends with `exit(1)` after the failed
`open` of the missing (NULL) path and never reaches `execvp`.  In shell2.c, when `pipe` and
the forks succeed, the parent also forks and returns 0. -/
theorem missing_operand_not_detected (os : OS) (toks : List CStr) (t : JobTable)
    (hop : (stripAmp toks).getLast? = some "<".toList ∨
      (stripAmp toks).getLast? = some ">".toList ∨
      (stripAmp toks).getLast? = some "|".toList) :
    (Shell6.execute os toks t).trace.head? = some (.fork (os.fork 0)) ∧
    (os.fork 0 ≠ 0 → toks.getLast? ≠ some "&".toList →
      (Shell6.execute os toks t).trace =
        [.fork (os.fork 0), .waitpid (os.fork 0) 0,
          .printf "Child exited with status %d\n" [.int (os.waitStatus (os.fork 0) >>> 8)]] ∧
      (Shell6.execute os toks t).outcome = .returned 0) ∧
    (os.fork 0 = 0 → (stripAmp toks).getLast? ≠ some "|".toList →
      (Shell6.execute os toks t).outcome = .exited 1 ∧
      ∀ file argv, Event.execvp file argv ∉ (Shell6.execute os toks t).trace) ∧
    (os.pipe.1 ≠ -1 → 0 < os.fork 0 → os.fork 1 ≠ 0 →
      Event.fork (os.fork 0) ∈ (Shell2.execute os toks).trace ∧
      (Shell2.execute os toks).outcome = .returned 0) := by
  have hne : toks ≠ [] := by
    rcases hop with h | h | h <;> exact stripAmp_ne_nil toks _ h
  refine ⟨execute_trace_head os toks t hne,
    fun hf hl => execute_parent_foreground os toks t hne hf hl,
    fun hf hp => ?_, fun hp h0 h1 => shell2_parent_returns os toks hp h0 h1⟩
  rcases hop with h | h | h
  · exact execute_child_missing os toks t (Or.inl h) hf
  · exact execute_child_missing os toks t (Or.inr h) hf
  · exact absurd h hp

theorem missing_operand_not_detected_witness :
    ((stripAmp ["sort".toList, ">".toList, "&".toList]).getLast? = some "<".toList ∨
      (stripAmp ["sort".toList, ">".toList, "&".toList]).getLast? = some ">".toList ∨
      (stripAmp ["sort".toList, ">".toList, "&".toList]).getLast? = some "|".toList) ∧
    (Shell6.execute (quietOS 0) ["sort".toList, ">".toList, "&".toList] JobTable.init).trace
      = [.fork 0, .openFile none true (-1), .stderr "Failed to open file for writing", .exit 1] ∧
    (Shell6.execute (quietOS 0) ["sort".toList, ">".toList, "&".toList]
      JobTable.init).trace.head? = some (.fork ((quietOS 0).fork 0)) :=
  ⟨by decide, by decide,
    (missing_operand_not_detected (quietOS 0) ["sort".toList, ">".toList, "&".toList]
      JobTable.init (by decide)).1⟩

/-! ## The job table of shell6.c -/

theorem live_length (t : JobTable) : t.live.length = t.job_count := by
  simp [JobTable.live]

theorem live_insert (jobs : Nat → Job) (n : Nat) (job : Job) :
    JobTable.live ⟨setSlot jobs n job, n + 1⟩ = JobTable.live ⟨jobs, n⟩ ++ [job] := by
  simp only [JobTable.live, List.range_succ, List.map_append, List.map_cons, List.map_nil]
  congr 1
  · apply List.map_congr_left
    intro i hi
    have : i ≠ n := by
      have := List.mem_range.mp hi
      omega
    simp [setSlot, this]
  · simp [setSlot]

theorem show_jobs_eq_map (t : JobTable) :
    Shell6.show_jobs t = t.live.map fun j =>
      Event.printf "[%d] %d %s\n" [.int j.job_number, .int j.pid, .str j.command] := by
  simp [Shell6.show_jobs, JobTable.live, List.map_map, Function.comp_def]

theorem shiftJobs_apply (n : Nat) :
    ∀ (j : Nat) (jobs : Nat → Job) (k : Nat),
      Shell6.shiftJobs n j jobs k = if j ≤ k ∧ k < j + n then jobs (k + 1) else jobs k := by
  induction n with
  | zero =>
    intro j jobs k
    simp only [Shell6.shiftJobs]
    rw [if_neg (by omega)]
  | succ n ih =>
    intro j jobs k
    simp only [Shell6.shiftJobs]
    rw [ih]
    unfold setSlot
    by_cases h1 : j + 1 ≤ k ∧ k < j + 1 + n
    · rw [if_pos h1, if_neg (by omega), if_pos (by omega)]
    · rw [if_neg h1]
      by_cases h2 : k = j
      · rw [if_pos h2, if_pos (by omega), h2]
      · rw [if_neg h2, if_neg (by omega)]

theorem removeFrom_live (pid : Int) (t : JobTable) (n : Nat) :
    ∀ i, i + n = t.job_count →
      (Shell6.removeFrom pid t n i).live =
        (List.range i).map t.jobs ++
          ((List.range' i n).map t.jobs).eraseP (fun j => decide (j.pid = pid)) := by
  induction n with
  | zero =>
    intro i hi
    simp only [Shell6.removeFrom, JobTable.live, List.range'_zero, List.map_nil, List.eraseP_nil,
      List.append_nil]
    rw [← hi]; rfl
  | succ n ih =>
    intro i hi
    simp only [Shell6.removeFrom]
    by_cases hp : (t.jobs i).pid = pid
    · rw [if_pos hp]
      have hrange : List.range (t.job_count - 1) = List.range i ++ List.range' i n := by
        have : t.job_count - 1 = i + n := by omega
        rw [this, List.range_add, List.range'_eq_map_range]
      simp only [JobTable.live, hrange, List.map_append, List.range'_succ, List.map_cons]
      rw [List.eraseP_cons_of_pos (by simpa using hp)]
      congr 1
      · apply List.map_congr_left
        intro k hk
        have := List.mem_range.mp hk
        rw [shiftJobs_apply, if_neg (by omega)]
      · have hmap : List.range' (i + 1) n = (List.range' i n).map (1 + ·) := by
          rw [List.map_add_range', Nat.add_comm]
        rw [hmap, List.map_map]
        apply List.map_congr_left
        intro k hk
        have := List.mem_range'_1.mp hk
        rw [shiftJobs_apply, if_pos (by omega)]
        simp [Nat.add_comm]
    · rw [if_neg hp, ih (i + 1) (by omega)]
      simp only [List.range_succ, List.map_append, List.map_cons, List.map_nil,
        List.range'_succ, List.append_assoc, List.singleton_append]
      rw [List.eraseP_cons_of_neg (by simpa using hp)]

theorem remove_job_live (pid : Int) (t : JobTable) :
    (Shell6.remove_job pid t).live = t.live.eraseP (fun j => decide (j.pid = pid)) := by
  unfold Shell6.remove_job
  rw [removeFrom_live pid t t.job_count 0 (by omega)]
  simp [JobTable.live, List.range_eq_range']

/-- C6: for every token vector that ends in `&` after at least one other token (the first
token shorter than `MAX_LEN`, as every token of a line is), when `fork` returns a child pid
`p > 0` and the table holds fewer than `MAXARGS` jobs, `execute` of shell6.c returns 0
without any `waitpid`, and the table afterwards is the old one followed by one new entry
with pid `p`, job number old `job_count + 1` and the first token as command; `show_jobs`
prints the old lines first and the new one last. -/
theorem background_launch_appends_job (os : OS) (toks : List CStr) (t : JobTable) (p : Int)
    (hlast : toks.getLast? = some "&".toList) (hlen : 2 ≤ toks.length)
    (hp : os.fork 0 = p) (hpos : 0 < p) (hcap : t.job_count < MAXARGS)
    (hname : (toks.headD []).length < MAX_LEN) :
    (Shell6.execute os toks t).outcome = .returned 0 ∧
    (∀ pid options, Event.waitpid pid options ∉ (Shell6.execute os toks t).trace) ∧
    (Shell6.execute os toks t).table.job_count = t.job_count + 1 ∧
    (Shell6.execute os toks t).table.live =
      t.live ++ [⟨p, (t.job_count : Int) + 1, toks.headD []⟩] ∧
    Shell6.show_jobs (Shell6.execute os toks t).table =
      Shell6.show_jobs t ++
        [.printf "[%d] %d %s\n" [.int ((t.job_count : Int) + 1), .int p, .str (toks.headD [])]] := by
  have hi : (Shell6.scanLoop toks 0 none none).1 = toks.length := by
    rw [scanLoop_fst]; omega
  have hbg : Shell6.backgroundStep (slotsOf toks) toks.length =
      (true, (slotsOf toks).set (toks.length - 1) none) := by
    unfold Shell6.backgroundStep
    rw [slotsOf_getD, ← List.getLast?_eq_getElem?, if_pos hlast]
  have hfirst : ((slotsOf toks).set (toks.length - 1) none).getD 0 none
      = some (toks.headD []) := by
    rw [List.getD_eq_getElem?_getD, List.getElem?_set_ne (by omega), ← List.getD_eq_getElem?_getD,
      slotsOf_getD]
    cases toks with
    | nil => simp at hlen
    | cons first rest => simp
  have hrun : Shell6.execute os toks t =
      ⟨[.fork p, .printf "Started background process with PID %d\n" [.int p]], .returned 0,
        ⟨setSlot t.jobs t.job_count ⟨p, (t.job_count : Int) + 1, toks.headD []⟩,
          t.job_count + 1⟩⟩ := by
    unfold Shell6.execute
    rcases hscan : Shell6.scanLoop toks 0 none none with ⟨i, inR, outR⟩
    rw [hscan] at hi
    dsimp only at hi ⊢
    subst hi
    rw [hbg]
    dsimp only
    rw [if_neg (by omega), hp, if_neg (by omega)]
    unfold Shell6.executeParent
    rw [if_pos rfl, if_neg (by omega), hfirst]
    dsimp only
    rw [List.take_of_length_le (by omega)]
  rw [hrun]
  refine ⟨rfl, by simp, rfl, live_insert _ _ _, ?_⟩
  rw [show_jobs_eq_map, show_jobs_eq_map, live_insert]
  simp

theorem background_launch_appends_job_witness :
    (Shell6.execute (quietOS 4242) ["sleep".toList, "9".toList, "&".toList]
      (JobTable.ofList [⟨17, 1, "cat".toList⟩])).table.live
      = [⟨17, 1, "cat".toList⟩, ⟨4242, 2, "sleep".toList⟩] ∧
    (Shell6.execute (quietOS 4242) ["sleep".toList, "9".toList, "&".toList]
      (JobTable.ofList [⟨17, 1, "cat".toList⟩])).outcome = .returned 0 :=
  ⟨(background_launch_appends_job (quietOS 4242) ["sleep".toList, "9".toList, "&".toList]
      (JobTable.ofList [⟨17, 1, "cat".toList⟩]) 4242 (by decide) (by decide) (by decide)
      (by decide) (by decide) (by decide)).2.2.2.1,
    by decide⟩

/-- C7: with `MAXARGS` jobs in the table, launching `sleep &` (the child gets pid 4242) makes
`execute` of shell6.c store into `jobs[MAXARGS]`, one slot past the array: nothing is
reported, there is no capacity check. -/
theorem full_table_launch_overruns :
    fullTable.job_count = MAXARGS ∧
    (Shell6.execute (quietOS 4242) ["sleep".toList, "&".toList] fullTable).outcome
      = .undefined .jobsSlot ∧
    (Shell6.execute (quietOS 4242) ["sleep".toList, "&".toList] fullTable).trace
      = [.fork 4242] := by
  decide

theorem eraseP_pid_map (pid : Int) (l : List Job) :
    (l.eraseP (fun j => decide (j.pid = pid))).map Job.pid = (l.map Job.pid).erase pid := by
  induction l with
  | nil => rfl
  | cons j rest ih =>
    by_cases h : j.pid = pid
    · rw [List.eraseP_cons_of_pos (by simpa using h)]
      simp [List.erase_cons, h]
    · rw [List.eraseP_cons_of_neg (by simpa using h)]
      simp [List.erase_cons, h, ih]

theorem remove_job_pids (pid : Int) (t : JobTable) :
    (Shell6.remove_job pid t).pids = t.pids.erase pid := by
  unfold JobTable.pids
  rw [remove_job_live, eraseP_pid_map]

theorem sigchld_handler_pids (reported : List Int) :
    ∀ t : JobTable, (∀ p ∈ reported, 0 < p) →
      (Shell6.sigchld_handler reported t).2.pids = t.pids.diff reported := by
  induction reported with
  | nil => intro t _; rfl
  | cons pid more ih =>
    intro t hpos
    simp only [Shell6.sigchld_handler]
    rw [if_pos (hpos pid (List.mem_cons_self _ _))]
    dsimp only
    rw [ih _ (fun p hp => hpos p (List.mem_cons_of_mem _ hp)), remove_job_pids, List.diff_cons]

theorem reap_pids (batches : List (List Int)) :
    ∀ t : JobTable, (∀ p ∈ batches.flatten, 0 < p) →
      (Shell6.reap batches t).pids = t.pids.diff batches.flatten := by
  induction batches with
  | nil => intro t _; rfl
  | cons reported more ih =>
    intro t hpos
    have h1 : ∀ p ∈ reported, 0 < p := fun p hp => hpos p (by simp [hp])
    have h2 : ∀ p ∈ more.flatten, 0 < p := fun p hp => hpos p (by
      rw [List.flatten_cons]; exact List.mem_append_right _ hp)
    simp only [Shell6.reap, List.foldl_cons, List.flatten_cons, List.diff_append]
    have := ih (Shell6.sigchld_handler reported t).2 h2
    simp only [Shell6.reap] at this
    rw [this, sigchld_handler_pids reported t h1]

theorem diff_self_nil (l : List Int) : l.diff l = [] := by
  induction l with
  | nil => rfl
  | cons a rest ih => rw [List.diff_cons, List.erase_cons_head, ih]

/-- C8: for every job table whose pids are pairwise distinct, and every way in which the
non-blocking wait reports exactly those pids (each report a positive pid, in any order,
spread over one or several runs of `sigchld_handler`), the table is empty afterwards:
`job_count` is 0. -/
theorem reaper_empties_table (t : JobTable) (batches : List (List Int))
    (hnodup : t.pids.Nodup) (hperm : batches.flatten.Perm t.pids)
    (hpos : ∀ p ∈ t.pids, 0 < p) :
    (Shell6.reap batches t).job_count = 0 ∧ (Shell6.reap batches t).live = [] := by
  have _distinct := hnodup
  have h1 : (Shell6.reap batches t).pids = [] := by
    rw [reap_pids batches t (fun p hp => hpos p (hperm.mem_iff.mp hp)),
      List.Perm.diff_left _ hperm, diff_self_nil]
  have h2 : (Shell6.reap batches t).live = [] := by
    unfold JobTable.pids at h1
    exact List.map_eq_nil_iff.mp h1
  refine ⟨?_, h2⟩
  rw [← live_length, h2]
  rfl

theorem reaper_empties_table_witness :
    (JobTable.ofList [⟨11, 1, "a".toList⟩, ⟨12, 2, "b".toList⟩, ⟨13, 3, "c".toList⟩]).pids
      = [11, 12, 13] ∧
    (Shell6.reap [[13, 11], [12]]
      (JobTable.ofList [⟨11, 1, "a".toList⟩, ⟨12, 2, "b".toList⟩, ⟨13, 3, "c".toList⟩])).job_count
      = 0 :=
  ⟨by decide,
    (reaper_empties_table
      (JobTable.ofList [⟨11, 1, "a".toList⟩, ⟨12, 2, "b".toList⟩, ⟨13, 3, "c".toList⟩])
      [[13, 11], [12]] (by decide) (by decide) (by decide)).1⟩

theorem removeFrom_found (pid : Int) (t : JobTable) (m : Nat)
    (hm : (t.jobs m).pid = pid) (n : Nat) :
    ∀ i, i ≤ m → m < i + n → (∀ k, i ≤ k → k < m → (t.jobs k).pid ≠ pid) →
      Shell6.removeFrom pid t n i =
        ⟨Shell6.shiftJobs (t.job_count - 1 - m) m t.jobs, t.job_count - 1⟩ := by
  induction n with
  | zero => intro i h1 h2; omega
  | succ n ih =>
    intro i h1 h2 hbefore
    simp only [Shell6.removeFrom]
    by_cases him : i = m
    · subst him
      rw [if_pos hm]
    · rw [if_neg (hbefore i (le_refl _) (by omega))]
      exact ih (i + 1) (by omega) (by omega) (fun k hk1 hk2 => hbefore k (by omega) hk2)

theorem kill_job_head (os : OS) (t : JobTable) (n : Nat) (h1 : 1 ≤ n) (h2 : n ≤ t.job_count) :
    (Shell6.kill_job os n t).1.head? = some (.kill (t.jobs (n - 1)).pid SIGKILL) := by
  unfold Shell6.kill_job
  have hidx : ((n : Int) - 1).toNat = n - 1 := by omega
  rw [if_pos ⟨by omega, by omega⟩]
  dsimp only
  rw [hidx]
  split_ifs <;> rfl

/-- C9: for every job table and every `n` with `1 ≤ n ≤ job_count`, `kill_job(n)` of shell6.c
sends `SIGKILL` to the pid stored at position `n` (slot `n - 1`) of the table as it is now.
In particular, after `remove_job` removed the entry at a position `k ≤ n`, `kill_job(n)`
(with `n` still within the shorter table) goes to the pid that was at position `n + 1`
before; with pairwise distinct pids that is not the pid that was at position `n`. -/
theorem kill_job_targets_current_position (os : OS) (t : JobTable) (n : Nat)
    (h1 : 1 ≤ n) (h2 : n ≤ t.job_count) :
    (Shell6.kill_job os n t).1.head? = some (.kill (t.jobs (n - 1)).pid SIGKILL) ∧
    ∀ (pid : Int) (k : Nat), 1 ≤ k → k ≤ n → n + 1 ≤ t.job_count →
      (t.jobs (k - 1)).pid = pid → (∀ i, i < k - 1 → (t.jobs i).pid ≠ pid) →
      (Shell6.kill_job os n (Shell6.remove_job pid t)).1.head?
        = some (.kill (t.jobs n).pid SIGKILL) ∧
      (t.pids.Nodup → (t.jobs n).pid ≠ (t.jobs (n - 1)).pid) := by
  refine ⟨kill_job_head os t n h1 h2, fun pid k hk1 hk2 hn hpid hfirst => ⟨?_, fun hnd => ?_⟩⟩
  · have hrem : Shell6.remove_job pid t =
        ⟨Shell6.shiftJobs (t.job_count - 1 - (k - 1)) (k - 1) t.jobs, t.job_count - 1⟩ := by
      unfold Shell6.remove_job
      exact removeFrom_found pid t (k - 1) hpid t.job_count 0 (by omega) (by omega)
        (fun i _ hi => hfirst i hi)
    rw [kill_job_head os _ n h1 (by rw [hrem]; dsimp only; omega), hrem]
    dsimp only
    rw [shiftJobs_apply, if_pos (by omega)]
    have : n - 1 + 1 = n := by omega
    rw [this]
  · intro heq
    have hlen : t.pids.length = t.job_count := by simp [JobTable.pids, JobTable.live]
    have hget : ∀ i (hi : i < t.pids.length), t.pids[i] = (t.jobs i).pid := by
      intro i hi
      simp [JobTable.pids, JobTable.live]
    have hn1 : n < t.pids.length := by omega
    have hn2 : n - 1 < t.pids.length := by omega
    have := (@List.Nodup.getElem_inj_iff _ _ hnd n hn1 (n - 1) hn2).mp
      (by rw [hget, hget]; exact heq)
    omega

theorem kill_job_targets_current_position_witness :
    (Shell6.kill_job (quietOS 1) 2
      (JobTable.ofList [⟨11, 1, "a".toList⟩, ⟨12, 2, "b".toList⟩, ⟨13, 3, "c".toList⟩])).1.head?
      = some (.kill 12 SIGKILL) ∧
    (Shell6.kill_job (quietOS 1) 2 (Shell6.remove_job 11
      (JobTable.ofList [⟨11, 1, "a".toList⟩, ⟨12, 2, "b".toList⟩, ⟨13, 3, "c".toList⟩]))).1.head?
      = some (.kill 13 SIGKILL) :=
  ⟨(kill_job_targets_current_position (quietOS 1)
      (JobTable.ofList [⟨11, 1, "a".toList⟩, ⟨12, 2, "b".toList⟩, ⟨13, 3, "c".toList⟩]) 2
      (by decide) (by decide)).1,
    by decide⟩

/-- C10: from the empty table, launch `sleep &` (child 100) and `cat &` (child 200), then
`remove_job(100)`.  The one entry left sits in slot 0 but still carries job number 2, and
`show_jobs` prints `[2]`; `kill_job(2)` answers that there is no such job, while
`kill_job(1)` is what kills pid 200. -/
theorem job_number_not_renumbered :
    tableAfterRemoval.job_count = 1 ∧
    tableAfterRemoval.live = [⟨200, 2, "cat".toList⟩] ∧
    (tableAfterRemoval.jobs 0).job_number ≠ 0 + 1 ∧
    Shell6.show_jobs tableAfterRemoval =
      [.printf "[%d] %d %s\n" [.int 2, .int 200, .str "cat".toList]] ∧
    (Shell6.kill_job (quietOS 1) 2 tableAfterRemoval).1 = [.stderr "No such job number\n"] ∧
    (Shell6.kill_job (quietOS 1) 1 tableAfterRemoval).1.head? = some (.kill 200 SIGKILL) := by
  decide

/-! ## Removal from the job table -/

theorem removeFrom_absent (pid : Int) (t : JobTable) (n : Nat) :
    ∀ i, (∀ k, i ≤ k → k < i + n → (t.jobs k).pid ≠ pid) → Shell6.removeFrom pid t n i = t := by
  induction n with
  | zero => intro i _; rfl
  | succ n ih =>
    intro i h
    simp only [Shell6.removeFrom]
    rw [if_neg (h i (le_refl _) (by omega))]
    exact ih (i + 1) (fun k hk1 hk2 => h k (by omega) (by omega))

theorem remove_job_absent (pid : Int) (t : JobTable) (h : ∀ j ∈ t.live, j.pid ≠ pid) :
    Shell6.remove_job pid t = t := by
  unfold Shell6.remove_job
  apply removeFrom_absent
  intro k _ hk
  apply h
  unfold JobTable.live
  exact List.mem_map.mpr ⟨k, List.mem_range.mpr (by omega), rfl⟩

/-- C17: for every job table and every pid, `remove_job(pid)` of shell6.c deletes the first
entry that has this pid and keeps all other entries in their order, with `job_count` one
less; when no entry has the pid the table and `job_count` are returned unchanged. -/
theorem remove_job_deletes_first_match (pid : Int) (t : JobTable) :
    ((∀ j ∈ t.live, j.pid ≠ pid) → Shell6.remove_job pid t = t) ∧
    (∀ before e after, t.live = before ++ e :: after → e.pid = pid →
      (∀ b ∈ before, b.pid ≠ pid) →
      (Shell6.remove_job pid t).live = before ++ after ∧
      (Shell6.remove_job pid t).job_count + 1 = t.job_count) := by
  refine ⟨remove_job_absent pid t, fun before e after hlive he hbefore => ?_⟩
  have h1 : (Shell6.remove_job pid t).live = before ++ after := by
    rw [remove_job_live, hlive, List.eraseP_append_right _ (by simpa using hbefore),
      List.eraseP_cons_of_pos (by simpa using he)]
  refine ⟨h1, ?_⟩
  have h2 := live_length (Shell6.remove_job pid t)
  have h3 := live_length t
  rw [h1] at h2
  rw [hlive] at h3
  simp only [List.length_append, List.length_cons] at h2 h3
  omega

theorem remove_job_deletes_first_match_witness :
    (Shell6.remove_job 12
      (JobTable.ofList [⟨11, 1, "a".toList⟩, ⟨12, 2, "b".toList⟩, ⟨13, 3, "c".toList⟩,
        ⟨12, 4, "d".toList⟩])).live
      = [⟨11, 1, "a".toList⟩] ++ [⟨13, 3, "c".toList⟩, ⟨12, 4, "d".toList⟩] ∧
    (Shell6.remove_job 12
      (JobTable.ofList [⟨11, 1, "a".toList⟩, ⟨12, 2, "b".toList⟩, ⟨13, 3, "c".toList⟩,
        ⟨12, 4, "d".toList⟩])).job_count + 1 = 4 :=
  (remove_job_deletes_first_match 12
    (JobTable.ofList [⟨11, 1, "a".toList⟩, ⟨12, 2, "b".toList⟩, ⟨13, 3, "c".toList⟩,
      ⟨12, 4, "d".toList⟩])).2
    [⟨11, 1, "a".toList⟩] ⟨12, 2, "b".toList⟩ [⟨13, 3, "c".toList⟩, ⟨12, 4, "d".toList⟩]
    (by decide) (by decide) (by decide)

/-! ## The kill requests of shell6.c -/

/-- C11, as stated, fails: with a `kill` that succeeds, `kill_job(1)` and `kill_job_by_pid(11)`
both return a table from which the entry of pid 11 is already gone. -/
theorem kill_removes_entry_before_reaper :
    (JobTable.ofList [⟨11, 1, "a".toList⟩, ⟨12, 2, "b".toList⟩]).live
      = [⟨11, 1, "a".toList⟩, ⟨12, 2, "b".toList⟩] ∧
    (Shell6.kill_job (quietOS 1) 1
      (JobTable.ofList [⟨11, 1, "a".toList⟩, ⟨12, 2, "b".toList⟩])).2.live
      = [⟨12, 2, "b".toList⟩] ∧
    (Shell6.kill_job_by_pid (quietOS 1) 11
      (JobTable.ofList [⟨11, 1, "a".toList⟩, ⟨12, 2, "b".toList⟩])).2.live
      = [⟨12, 2, "b".toList⟩] := by
  decide

/-- C11, amended: a kill request that succeeds removes the job at once.  For every job table,
`kill_job(n)` with `1 ≤ n ≤ job_count` returns the table `remove_job(jobs[n - 1].pid)` makes of
it and `kill_job_by_pid(pid)` returns the table `remove_job(pid)` makes of it: the first entry
with that pid is gone, the others keep their order.  When the pids of the table are pairwise
distinct, a later run of `sigchld_handler` that reaps this pid leaves that table as it is. -/
theorem kill_request_removes_at_once (os : OS) (t : JobTable) (n : Nat) (pid : Int)
    (h1 : 1 ≤ n) (h2 : n ≤ t.job_count)
    (hkill : os.kill (t.jobs (n - 1)).pid SIGKILL = 0) (hkill2 : os.kill pid SIGKILL = 0) :
    (Shell6.kill_job os n t).2 = Shell6.remove_job (t.jobs (n - 1)).pid t ∧
    (Shell6.kill_job_by_pid os pid t).2 = Shell6.remove_job pid t ∧
    (Shell6.kill_job_by_pid os pid t).2.live
      = t.live.eraseP (fun j => decide (j.pid = pid)) ∧
    (t.pids.Nodup →
      (Shell6.sigchld_handler [pid] (Shell6.kill_job_by_pid os pid t).2).2
        = (Shell6.kill_job_by_pid os pid t).2) := by
  have hidx : ((n : Int) - 1).toNat = n - 1 := by omega
  have hby : (Shell6.kill_job_by_pid os pid t).2 = Shell6.remove_job pid t := by
    unfold Shell6.kill_job_by_pid
    rw [if_pos hkill2]
  refine ⟨?_, hby, by rw [hby, remove_job_live], fun hnd => ?_⟩
  · unfold Shell6.kill_job
    rw [if_pos ⟨by omega, by omega⟩]
    dsimp only
    rw [hidx, if_pos hkill]
  · rw [hby]
    simp only [Shell6.sigchld_handler]
    split_ifs
    · dsimp only
      apply remove_job_absent
      intro j hj hpid
      have hmem : pid ∈ (Shell6.remove_job pid t).pids := by
        unfold JobTable.pids
        exact List.mem_map.mpr ⟨j, hj, hpid⟩
      rw [remove_job_pids] at hmem
      exact (List.Nodup.mem_erase_iff hnd).mp hmem |>.1 rfl
    · rfl

theorem kill_request_removes_at_once_witness :
    (Shell6.kill_job (quietOS 1) 2
      (JobTable.ofList [⟨11, 1, "a".toList⟩, ⟨12, 2, "b".toList⟩])).2.live
      = [⟨11, 1, "a".toList⟩] ∧
    (Shell6.kill_job (quietOS 1) 2
      (JobTable.ofList [⟨11, 1, "a".toList⟩, ⟨12, 2, "b".toList⟩])).2
      = Shell6.remove_job 12 (JobTable.ofList [⟨11, 1, "a".toList⟩, ⟨12, 2, "b".toList⟩]) :=
  ⟨by decide,
    (kill_request_removes_at_once (quietOS 1)
      (JobTable.ofList [⟨11, 1, "a".toList⟩, ⟨12, 2, "b".toList⟩]) 2 11
      (by decide) (by decide) (by decide) (by decide)).1⟩

/-! ## Failure paths and bounds -/

/-- C13: with `fork` returning -1, `execute` of shell6.c takes the parent branch as if a
child existed.  For `sleep &` it stores a job with pid -1 and announces it; for `ls` it calls
`waitpid(-1, …)`, which waits for any child; both return 0 and report nothing.  The pipeline
branch of shell2.c does test for -1, says `Fork failed` and returns 1. -/
theorem fork_failure_not_detected :
    (quietOS (-1)).fork 0 = -1 ∧
    (Shell6.execute (quietOS (-1)) ["sleep".toList, "&".toList] JobTable.init).table.live
      = [⟨-1, 1, "sleep".toList⟩] ∧
    (Shell6.execute (quietOS (-1)) ["sleep".toList, "&".toList] JobTable.init).trace
      = [.fork (-1), .printf "Started background process with PID %d\n" [.int (-1)]] ∧
    (Shell6.execute (quietOS (-1)) ["sleep".toList, "&".toList] JobTable.init).outcome
      = .returned 0 ∧
    (Shell6.execute (quietOS (-1)) ["ls".toList] JobTable.init).trace
      = [.fork (-1), .waitpid (-1) 0, .printf "Child exited with status %d\n" [.int 0]] ∧
    (Shell6.execute (quietOS (-1)) ["ls".toList] JobTable.init).outcome = .returned 0 ∧
    Shell2.execute (quietOS (-1)) ["ls".toList, "|".toList, "wc".toList]
      = ⟨[.pipe 0, .fork (-1), .stderr "Fork failed"], .returned 1⟩ := by
  decide

/-- C16: on a line that is one word of `ARGLEN` = 30 characters `tokenize` of shell6.c has
no clamp and stores the terminating NUL at index 30 of the 30-byte token buffer; `tokenize`
of shell5.c, which has the clamp, returns the first 29 characters. -/
theorem long_token_overruns_buffer :
    Shell6.tokenize (List.replicate 30 'a') = .undefined .argBuffer ∧
    Shell6.tokenize ("ls ".toList ++ List.replicate 31 'a') = .undefined .argBuffer ∧
    Shell5.tokenize (List.replicate 30 'a') = .value (some [List.replicate 29 'a']) := by
  decide

/-- C18: on a line of eleven words `tokenize` of shell6.c stores eleven tokens (the last one
in slot `MAXARGS`) and then writes the terminating NULL to `arglist[11]`, past the
`MAXARGS + 1` slots; on a line of ten words it stays inside. -/
theorem eleven_words_overrun_arglist :
    Shell6.tokenizeLoop 100 "1 2 3 4 5 6 7 8 9 10 11".toList [] =
      .value ["1".toList, "2".toList, "3".toList, "4".toList, "5".toList, "6".toList,
        "7".toList, "8".toList, "9".toList, "10".toList, "11".toList] ∧
    Shell6.tokenize "1 2 3 4 5 6 7 8 9 10 11".toList = .undefined .arglistSlot ∧
    Shell6.tokenize "1 2 3 4 5 6 7 8 9 10 11 12".toList = .undefined .arglistSlot ∧
    Shell6.tokenize "1 2 3 4 5 6 7 8 9 10".toList =
      .value (some ["1".toList, "2".toList, "3".toList, "4".toList, "5".toList, "6".toList,
        "7".toList, "8".toList, "9".toList, "10".toList]) := by
  decide

/-! ## The history of shell6.c -/

theorem repeatSlot_pos (history_index : Nat) (n : Int) (h : 1 ≤ n) :
    0 ≤ Shell6.repeatSlot history_index n ∧
    Shell6.repeatSlot history_index n < (HIST_SIZE : Int) := by
  unfold Shell6.repeatSlot
  rw [if_neg (by omega), Int.tmod_eq_emod (by omega) (by simp [HIST_SIZE])]
  simp only [HIST_SIZE, Nat.cast_ofNat]
  omega

theorem repeatSlot_last (line : CStr) (h : Shell6.History) (hidx : h.history_index < HIST_SIZE) :
    Shell6.repeatSlot (Shell6.add_to_history line h).history_index (-1) = h.history_index ∧
    (Shell6.add_to_history line h).command_history h.history_index = some line := by
  unfold Shell6.repeatSlot Shell6.add_to_history
  simp only [HIST_SIZE, Nat.cast_ofNat] at hidx ⊢
  refine ⟨?_, by simp⟩
  rw [if_pos trivial, Int.tmod_eq_emod (by omega) (by omega)]
  omega

/-- C19: for `!0` the number parsed is 0 and `repeat_command` of shell6.c computes
`(0 - 1) % HIST_SIZE`, which is -1 in C: `command_history[-1]` is read, whatever the history
holds (`!-5` gives index -6).  For every `n ≥ 1` the index does lie in `0 .. HIST_SIZE - 1`,
and for -1 it is the slot `add_to_history` wrote last. -/
theorem repeat_zero_reads_before_history :
    Shell6.scanInt ("!0".toList.drop 1) = some 0 ∧
    (∀ history_index, Shell6.repeatSlot history_index 0 = -1) ∧
    (∀ h, Shell6.repeat_command "!0".toList h = .undefined .historySlot) ∧
    (∀ history_index, Shell6.repeatSlot history_index (-5) = -6) ∧
    (∀ history_index n, 1 ≤ n →
      0 ≤ Shell6.repeatSlot history_index n ∧
      Shell6.repeatSlot history_index n < (HIST_SIZE : Int)) ∧
    (∀ line h, h.history_index < HIST_SIZE →
      Shell6.repeatSlot (Shell6.add_to_history line h).history_index (-1) = h.history_index ∧
      (Shell6.add_to_history line h).command_history h.history_index = some line) :=
  ⟨by decide, fun _ => rfl, fun _ => rfl, fun _ => rfl, repeatSlot_pos, repeatSlot_last⟩

/-! ## The `kill` built-in of shell6.c -/

theorem mainDispatch_kill_job_nonpos (cmdline : CStr) (n : Int)
    (h : Shell6.mainDispatch cmdline = .value (.kill_job n)) : n ≤ 0 := by
  unfold Shell6.mainDispatch at h
  split_ifs at h
  · cases h
  · split at h
    · cases h
    · cases h
    · cases h
    · split at h
      · cases h
      · split_ifs at h
        all_goals first
          | cases h
          | (split at h
             · dsimp only at h
               split_ifs at h with hpid
               · cases h
               · injection h with h
                 injection h with h
                 omega
             · cases h)
          | (split at h
             · cases h
             · split at h
               · cases h
               · cases h)

/-- C14: the line `kill 1` makes the loop body of `main` (shell6.c) call `kill_job_by_pid(1)`,
so `SIGKILL` goes to the process with pid 1 and job 1 (pid 4242) stays in the table, where
`kill_job(1)` would signal pid 4242.  No line at all makes `main` call `kill_job` with a
positive number: that call is reached only when `atoi` gave a number that is not positive. -/
theorem kill_line_goes_by_pid :
    Shell6.mainDispatch "kill 1".toList = .value (.kill_job_by_pid 1) ∧
    (Shell6.kill_job_by_pid (quietOS 1) 1
      (JobTable.ofList [⟨4242, 1, "sleep".toList⟩])).1.head? = some (.kill 1 SIGKILL) ∧
    (Shell6.kill_job_by_pid (quietOS 1) 1
      (JobTable.ofList [⟨4242, 1, "sleep".toList⟩])).2.live = [⟨4242, 1, "sleep".toList⟩] ∧
    (Shell6.kill_job (quietOS 1) 1
      (JobTable.ofList [⟨4242, 1, "sleep".toList⟩])).1.head? = some (.kill 4242 SIGKILL) ∧
    (∀ cmdline n, Shell6.mainDispatch cmdline = .value (.kill_job n) → n ≤ 0) :=
  ⟨by decide, by decide, by decide, by decide, mainDispatch_kill_job_nonpos⟩

/-! ## The pipeline of shell2.c -/

theorem shell2_scan_pipe_absent (toks : List CStr) (h : "|".toList ∉ toks) :
    ∀ i a b c, (Shell2.scanLoop toks i a b c).2.2 = c := by
  induction toks with
  | nil => intro i a b c; rfl
  | cons tok rest ih =>
    intro i a b c
    have h1 : tok ≠ "|".toList := fun e => h (e ▸ List.mem_cons_self _ _)
    have h2 : "|".toList ∉ rest := fun m => h (List.mem_cons_of_mem _ m)
    simp only [Shell2.scanLoop]
    split_ifs <;> exact ih h2 _ _ _ _

theorem shell2_scan_pipe_kept (toks : List CStr) :
    ∀ i a b c, c ≠ none → (Shell2.scanLoop toks i a b c).2.2 ≠ none := by
  induction toks with
  | nil => intro i a b c hc; exact hc
  | cons tok rest ih =>
    intro i a b c hc
    simp only [Shell2.scanLoop]
    split_ifs
    · exact ih _ _ _ _ hc
    · exact ih _ _ _ _ hc
    · exact ih _ _ _ _ (by simp)
    · exact ih _ _ _ _ hc

theorem shell2_scan_pipe_found (toks : List CStr) (h : "|".toList ∈ toks) :
    ∀ i a b c, (Shell2.scanLoop toks i a b c).2.2 ≠ none := by
  induction toks with
  | nil => simp at h
  | cons tok rest ih =>
    intro i a b c
    have hlt : "<".toList ≠ "|".toList := by decide
    have hgt : ">".toList ≠ "|".toList := by decide
    simp only [Shell2.scanLoop]
    by_cases htok : tok = "|".toList
    · rw [if_neg (by rw [htok]; exact Ne.symm hlt), if_neg (by rw [htok]; exact Ne.symm hgt),
        if_pos htok]
      exact shell2_scan_pipe_kept rest _ _ _ _ (by simp)
    · have hrest : "|".toList ∈ rest := by
        rcases List.mem_cons.mp h with h | h
        · exact absurd h.symm htok
        · exact h
      split_ifs <;> exact ih hrest _ _ _ _

theorem shell2_scan_pipe_unique (toks : List CStr) :
    ∀ i a b c, toks.count "|".toList ≤ 1 → ∀ j, toks[j]? = some "|".toList →
      (Shell2.scanLoop toks i a b c).2.2 = some (i + j) := by
  induction toks with
  | nil => intro i a b c _ j hj; simp at hj
  | cons tok rest ih =>
    intro i a b c hc j hj
    have hlt : "<".toList ≠ "|".toList := by decide
    have hgt : ">".toList ≠ "|".toList := by decide
    simp only [Shell2.scanLoop]
    by_cases h1 : tok = "|".toList
    · rw [if_neg (by rw [h1]; exact Ne.symm hlt), if_neg (by rw [h1]; exact Ne.symm hgt),
        if_pos h1]
      have hrest : "|".toList ∉ rest := by
        intro hm
        have := List.count_pos_iff.mpr hm
        rw [h1, List.count_cons_self] at hc
        omega
      rw [shell2_scan_pipe_absent rest hrest]
      cases j with
      | zero => rfl
      | succ j =>
        simp only [List.getElem?_cons_succ] at hj
        exact absurd (List.getElem?_mem hj) hrest
    · have hc2 : rest.count "|".toList ≤ 1 := by
        rw [List.count_cons_of_ne (Ne.symm h1)] at hc
        exact hc
      cases j with
      | zero => simp at hj; exact absurd hj h1
      | succ j =>
        simp only [List.getElem?_cons_succ] at hj
        have := fun a b c => ih (i + 1) a b c hc2 j hj
        split_ifs <;> rw [this] <;> congr 1 <;> omega

theorem executePipe_parent (os : OS) (toks : List CStr) (p : Nat) (hpipe : os.pipe.1 ≠ -1)
    (h0 : 0 < os.fork 0) (h1 : 0 < os.fork 1) :
    Shell2.executePipe os toks p =
      ⟨[.pipe os.pipe.1, .fork (os.fork 0), .waitpid (os.fork 0) 0, .fork (os.fork 1),
          .close os.pipe.2.1, .close os.pipe.2.2, .waitpid (os.fork 1) 0],
        .returned 0⟩ := by
  unfold Shell2.executePipe
  rcases hp : os.pipe with ⟨ret, rfd, wfd⟩
  rw [hp] at hpipe
  dsimp only at hpipe ⊢
  rw [if_neg hpipe, if_neg (by omega), if_neg (by omega), if_neg (by omega)]

/-- C12, as stated, fails: when the right-hand child (pid 1235) ends with exit status 3
(wait status 768), `execute` of shell2.c still returns 0 for `printf ab | false`. -/
theorem pipeline_status_dropped :
    (statusOS 1234 768).waitStatus 1235 >>> 8 = 3 ∧
    (Shell2.execute (statusOS 1234 768)
      ["printf".toList, "ab".toList, "|".toList, "false".toList]).outcome = .returned 0 ∧
    (Shell2.execute (statusOS 1234 768)
      ["printf".toList, "ab".toList, "|".toList, "false".toList]).outcome ≠ .returned 3 := by
  decide

/-- C12, amended: for every foreground pipeline command in which `pipe` succeeds and both
children are spawned, `execute` of shell2.c waits for the left child, then spawns and waits
for the right child, and returns 0 to its caller whatever the exit status of either child
is; no status is printed. -/
theorem pipeline_returns_zero (os : OS) (toks : List CStr) (hbar : "|".toList ∈ toks)
    (hpipe : os.pipe.1 ≠ -1) (h0 : 0 < os.fork 0) (h1 : 0 < os.fork 1) :
    (Shell2.execute os toks).outcome = .returned 0 ∧
    (Shell2.execute os toks).trace =
      [.pipe os.pipe.1, .fork (os.fork 0), .waitpid (os.fork 0) 0, .fork (os.fork 1),
        .close os.pipe.2.1, .close os.pipe.2.2, .waitpid (os.fork 1) 0] := by
  have hfound := shell2_scan_pipe_found toks hbar 0 none none none
  unfold Shell2.execute
  rcases hscan : Shell2.scanLoop toks 0 none none none with ⟨inR, outR, pipeFound⟩
  rw [hscan] at hfound
  dsimp only at hfound ⊢
  cases pipeFound with
  | none => exact absurd rfl hfound
  | some p =>
    dsimp only
    rw [executePipe_parent os toks p hpipe h0 h1]
    exact ⟨rfl, rfl⟩

theorem pipeline_returns_zero_witness :
    "|".toList ∈ ["printf".toList, "ab".toList, "|".toList, "wc".toList] ∧
    (Shell2.execute (statusOS 1234 256)
      ["printf".toList, "ab".toList, "|".toList, "wc".toList]).outcome = .returned 0 :=
  ⟨by decide,
    (pipeline_returns_zero (statusOS 1234 256)
      ["printf".toList, "ab".toList, "|".toList, "wc".toList]
      (by decide) (by decide) (by decide) (by decide)).1⟩

theorem execChild_mem (os : OS) (msg : String) (slots : List (Option CStr)) (first : Nat) :
    Event.execvp (slots.getD first none) (argvOf (slots.drop first)) ∈
      (execChild os msg slots first).1 := by
  unfold execChild
  dsimp only
  split_ifs <;> simp

theorem execChild_execvp_iff (os : OS) (msg : String) (slots : List (Option CStr)) (first : Nat)
    (before : List Event) (hbefore : ∀ file argv, Event.execvp file argv ∉ before)
    (file : Option CStr) (argv : List CStr) :
    Event.execvp file argv ∈ before ++ (execChild os msg slots first).1 ↔
      file = slots.getD first none ∧ argv = argvOf (slots.drop first) := by
  constructor
  · intro h
    rcases List.mem_append.mp h with h | h
    · exact absurd h (hbefore _ _)
    · exact execChild_execvp _ _ _ _ _ _ h
  · rintro ⟨rfl, rfl⟩
    exact List.mem_append_right _ (execChild_mem _ _ _ _)

theorem slotsOf_drop (toks : List CStr) (k : Nat) (hk : k ≤ toks.length) :
    (slotsOf toks).drop k = slotsOf (toks.drop k) := by
  unfold slotsOf
  rw [List.drop_append_of_le_length (by simpa using hk), List.map_drop]

theorem bar_only_at (toks : List CStr) (p : Nat) (hcount : toks.count "|".toList = 1)
    (hp : toks[p]? = some "|".toList) :
    "|".toList ∉ toks.take p ∧ "|".toList ∉ toks.drop (p + 1) := by
  have hlt : p < toks.length := by
    by_contra hge
    rw [List.getElem?_eq_none (by omega)] at hp
    cases hp
  have hget : toks[p] = "|".toList := by
    rw [List.getElem?_eq_getElem hlt] at hp
    exact Option.some.inj hp
  have hsplit : toks = toks.take p ++ "|".toList :: toks.drop (p + 1) := by
    rw [← hget, ← List.drop_eq_getElem_cons hlt, List.take_append_drop]
  rw [hsplit, List.count_append, List.count_cons_self] at hcount
  constructor
  · apply List.count_eq_zero.mp
    omega
  · apply List.count_eq_zero.mp
    omega

/-- C15: for every token vector with exactly one `|`, at position `p`, and at least one token
on each side, when `pipe` succeeds `execute` of shell2.c forks twice; the first child calls
`execvp` with program `tokens[0]` and the vector `tokens[0..p)`, the second child with program
`tokens[p+1]` and the vector `tokens[p+1..end)`, and neither vector holds the `|`. -/
theorem pipeline_splits_at_bar (os : OS) (toks : List CStr) (p : Nat)
    (hcount : toks.count "|".toList = 1) (hp : toks[p]? = some "|".toList)
    (hleft : 1 ≤ p) (hright : p + 1 < toks.length) (hpipe : os.pipe.1 ≠ -1) :
    (os.fork 0 = 0 → ∀ file argv,
      Event.execvp file argv ∈ (Shell2.execute os toks).trace ↔
        file = toks[0]? ∧ argv = toks.take p) ∧
    (0 < os.fork 0 → os.fork 1 = 0 → ∀ file argv,
      Event.execvp file argv ∈ (Shell2.execute os toks).trace ↔
        file = toks[p + 1]? ∧ argv = toks.drop (p + 1)) ∧
    (0 < os.fork 0 → 0 < os.fork 1 →
      (Shell2.execute os toks).trace =
        [.pipe os.pipe.1, .fork (os.fork 0), .waitpid (os.fork 0) 0, .fork (os.fork 1),
          .close os.pipe.2.1, .close os.pipe.2.2, .waitpid (os.fork 1) 0]) ∧
    toks[0]? ≠ none ∧ toks[p + 1]? ≠ none ∧
    "|".toList ∉ toks.take p ∧ "|".toList ∉ toks.drop (p + 1) := by
  have hfound := shell2_scan_pipe_unique toks 0 none none none (by omega) p hp
  have hexec : Shell2.execute os toks = Shell2.executePipe os toks p := by
    unfold Shell2.execute
    rcases hscan : Shell2.scanLoop toks 0 none none none with ⟨inR, outR, pipeFound⟩
    rw [hscan] at hfound
    dsimp only at hfound ⊢
    rw [hfound, Nat.zero_add]
  have hbar := bar_only_at toks p hcount hp
  refine ⟨fun hf file argv => ?_, fun hf0 hf1 file argv => ?_, fun hf0 hf1 => ?_, ?_, ?_,
    hbar.1, hbar.2⟩
  · rw [hexec]
    unfold Shell2.executePipe
    rcases hpp : os.pipe with ⟨ret, rfd, wfd⟩
    rw [hpp] at hpipe
    dsimp only at hpipe ⊢
    rw [if_neg hpipe, if_neg (by omega), if_pos hf]
    dsimp only
    rw [execChild_execvp_iff _ _ _ _ _ (by simp), List.drop_zero, argvOf_set_none, argvOf_slotsOf,
      List.getD_eq_getElem?_getD, List.getElem?_set_ne (by omega), ← List.getD_eq_getElem?_getD,
      slotsOf_getD]
  · rw [hexec]
    unfold Shell2.executePipe
    rcases hpp : os.pipe with ⟨ret, rfd, wfd⟩
    rw [hpp] at hpipe
    dsimp only at hpipe ⊢
    rw [if_neg hpipe, if_neg (by omega), if_neg (by omega), if_pos hf1]
    dsimp only
    rw [execChild_execvp_iff _ _ _ _ _ (by simp), slotsOf_drop _ _ (by omega), argvOf_slotsOf,
      slotsOf_getD]
  · rw [hexec, executePipe_parent os toks p hpipe hf0 hf1]
  · rw [List.getElem?_eq_getElem (by omega)]
    simp
  · rw [List.getElem?_eq_getElem hright]
    simp

theorem pipeline_splits_at_bar_witness :
    (Event.execvp (some "printf".toList) ["printf".toList, "ab".toList] ∈
      (Shell2.execute (quietOS 0)
        ["printf".toList, "ab".toList, "|".toList, "wc".toList, "-c".toList]).trace) ∧
    (∀ file argv, Event.execvp file argv ∈
      (Shell2.execute (quietOS 0)
        ["printf".toList, "ab".toList, "|".toList, "wc".toList, "-c".toList]).trace ↔
      file = ["printf".toList, "ab".toList, "|".toList, "wc".toList, "-c".toList][0]? ∧
      argv = ["printf".toList, "ab".toList, "|".toList, "wc".toList, "-c".toList].take 2) :=
  ⟨by decide,
    (pipeline_splits_at_bar (quietOS 0)
      ["printf".toList, "ab".toList, "|".toList, "wc".toList, "-c".toList] 2
      (by decide) (by decide) (by decide) (by decide) (by decide)).1 (by decide)⟩

end Shell
